import Mathlib

/-!
# Verification of the Moviesda scraper link-resolution pipeline

A shallow embedding of the cascading link-resolution pipeline of
`main.py` (class `MoviesdaScraper`): page-type classification, traversal
strategy selection, multi-level redirect following, and aggregation.

A fetched, parsed HTML page (a BeautifulSoup object) is modelled by the
structure `Page`, which records exactly the projections the program
reads: the first href-carrying anchor of each `div.f` container, the
href-carrying anchors of each `div.dlink` container, the list items
(each with its first href-carrying anchor and its stripped text), all
href-carrying anchors, the `li a.coral` anchors, the images, the
`<picture>` elements and the `<title>` text.  The HTTP layer
(`_get_soup`) is an environment parameter `Fetch : String → Option Page`
(`none` models a request failure).

Python string operations are modelled at the level of character lists
(`String.data`): `pyIn` is the substring operator `in`, `pyStartsWith`
is `str.startswith`, `strLower` is `str.lower` (ASCII), and the concrete
regular expressions of the source are implemented as explicit scanners
with Python's leftmost / lazy / greedy backtracking order.
-/

/-- Python `pat in s` on character lists: `pat` occurs as a contiguous
substring. -/
def containsSub (pat : List Char) : List Char → Bool
  | [] => pat.isEmpty
  | c :: rest => pat.isPrefixOf (c :: rest) || containsSub pat rest

/-- Python `pat in s` (substring test). -/
def pyIn (pat s : String) : Bool := containsSub pat.data s.data

/-- Python `s.startswith(pre)`. -/
def pyStartsWith (s pre : String) : Bool := pre.data.isPrefixOf s.data

/-- Python `s.lower()` (ASCII case folding as used by the source). -/
def strLower (s : String) : String := String.mk (s.data.map Char.toLower)

/-- Python `str(n).zfill(2)`. -/
def zfill2 (n : Nat) : String :=
  let s := toString n
  if s.data.length < 2 then "0" ++ s else s

/-- Characters allowed in a URL scheme (`urllib.parse` convention). -/
def schemeChar (c : Char) : Bool :=
  c.isAlpha || c.isDigit || c == '+' || c == '-' || c == '.'

/-- `r` begins with `"//"` followed by a nonempty network location, i.e.
the part of a URL that follows the scheme separator `:` when a host is
present. -/
def startsHost : List Char → Bool
  | a :: b :: d :: _ => a == '/' && b == '/' && !(d == '/')
  | _ => false

/-- Character-level absolute-URL check: a nonempty run of scheme
characters, then `"://"`, then a nonempty host.  `seen` records whether
at least one scheme character has been consumed. -/
def isAbsChars : List Char → (seen : Bool) → Bool
  | [], _ => false
  | c :: rest, seen =>
    if c == ':' then seen && startsHost rest
    else schemeChar c && isAbsChars rest true

/-- The spec's notion of an absolute URL: scheme and host are present
(`scheme://host...`). -/
def isAbsoluteUrl (u : String) : Bool := isAbsChars u.data false

/-- Python `urllib.parse` scheme detection: a nonempty run of scheme
characters, starting with a letter, terminated by `:`. -/
def hasScheme (u : String) : Bool :=
  let pre := u.data.takeWhile (fun c => !(c == ':'))
  decide (pre.length < u.data.length) && !pre.isEmpty &&
    pre.all schemeChar && (pre.headD ' ').isAlpha

/-- The characters before the first `:` of `u` (the scheme of an
absolute URL). -/
def schemeOf (u : String) : String :=
  String.mk (u.data.takeWhile (fun c => !(c == ':')))

/-- `f"{parsed.scheme}://{parsed.netloc}"` for
`parsed = urlparse(u)`: the origin of `u`.  Modelled for URLs of the
form `scheme://netloc...`; inputs without a `"://"` separator collapse
to `"://"` exactly as the f-string does for an empty scheme and netloc. -/
def originOf (u : String) : String :=
  let cs := u.data
  let s := cs.takeWhile (fun c => !(c == ':'))
  match cs.drop s.length with
  | _ :: a :: b :: r =>
    if a == '/' && b == '/' then
      String.mk s ++ "://" ++ String.mk (r.takeWhile (fun c => !(c == '/')))
    else "://"
  | _ => "://"

/-- `urllib.parse.urljoin(base, url)` modelled for the call sites of the
source, where `base` is always an origin `scheme://netloc` (no path):
an empty `url` keeps the base, a `url` carrying its own scheme is
returned unchanged, a network-path reference `//...` inherits the base's
scheme, and a relative reference is attached to the base's root. -/
def urljoin (base url : String) : String :=
  if url = "" then base
  else if hasScheme url then url
  else if pyStartsWith url "//" then schemeOf base ++ ":" ++ url
  else if pyStartsWith url "/" then base ++ url
  else base ++ "/" ++ url

/-- The absolutisation idiom repeated throughout the source:
`href if href.startswith("http") else urljoin(base_url, href)`. -/
def mkFull (base href : String) : String :=
  if pyStartsWith href "http" then href else urljoin base href

/-- Python `text.split(sep)[0]` for a nonempty separator: the characters
before the first occurrence of `sep`. -/
def takeUntilSep (sep : List Char) : List Char → List Char
  | [] => []
  | c :: rest =>
    if sep.isPrefixOf (c :: rest) then [] else c :: takeUntilSep sep rest

/-- Python `s.split()`: maximal runs of non-whitespace characters. -/
def pyWords : List Char → List Char → List (List Char)
  | acc, [] => if acc.isEmpty then [] else [acc.reverse]
  | acc, c :: rest =>
    if c.isWhitespace then
      if acc.isEmpty then pyWords [] rest else acc.reverse :: pyWords [] rest
    else pyWords (c :: acc) rest

/-- `srcset.split()[0]`: the first whitespace-separated token (the
source only evaluates this under a guard that guarantees a token
exists). -/
def firstToken (s : String) : String :=
  String.mk ((pyWords [] s.data).headD [])

/-- Python `s.replace("-", " ")`. -/
def dashToSpace (s : String) : String :=
  String.mk (s.data.map (fun c => if c == '-' then ' ' else c))

/-- Python `s.title()` (ASCII): uppercase every letter that does not
follow a letter, lowercase the rest. -/
def pyTitleAux : Bool → List Char → List Char
  | _, [] => []
  | prevAlpha, c :: rest =>
    (if c.isAlpha then (if prevAlpha then c.toLower else c.toUpper) else c)
      :: pyTitleAux c.isAlpha rest

/-- Python `s.title()`. -/
def pyTitle (s : String) : String := String.mk (pyTitleAux false s.data)

/-- `re.search(r"\d+x\d+", text)` succeeds iff some `'x'` has a digit
immediately on both sides. -/
def hasDimChars : List Char → Bool
  | a :: b :: c :: rest =>
    (a.isDigit && b == 'x' && c.isDigit) || hasDimChars (b :: c :: rest)
  | _ => false

/-- `re.search(r"\d+x\d+", text)` as a Boolean. -/
def hasDim (s : String) : Bool := hasDimChars s.data

/-- `re.match(r".*/movie/\d+/?$", href)`: after dropping one optional
trailing `/`, the path ends in a `/movie/` segment followed by a
nonempty run of digits, with at least one `/` before `movie`. -/
def splitOnChar (c : Char) : List Char → List (List Char)
  | [] => [[]]
  | x :: rest =>
    match splitOnChar c rest with
    | [] => [[]]
    | h :: t => if x == c then [] :: h :: t else (x :: h) :: t

/-- `re.match(r".*/movie/\d+/?$", href)` as a Boolean. -/
def isNumericMoviePath (href : String) : Bool :=
  let cs := href.data
  let cs1 := if cs.getLast? == some '/' then cs.dropLast else cs
  match (splitOnChar '/' cs1).reverse with
  | ds :: m :: _ :: _ =>
    m == "movie".data && !ds.isEmpty && ds.all Char.isDigit
  | _ => false

/-- Tail of `re.search(r"File Size[:\s]*(\d+\.?\d*\s*[GMKT]B)", t, re.I)`
after an occurrence of `"file size"`: consume `[:\s]*`, then
`\d+\.?\d*\s*`, then a unit letter and `B` (case-insensitive), returning
the captured group. -/
def matchSizeAt (cs : List Char) : Option String :=
  let r1 := cs.dropWhile (fun c => c == ':' || c.isWhitespace)
  let ds := r1.takeWhile Char.isDigit
  if ds.isEmpty then none
  else
    let r2 := r1.drop ds.length
    let dot : List Char := match r2 with
      | '.' :: _ => ['.']
      | _ => []
    let r3 := r2.drop dot.length
    let ds2 := r3.takeWhile Char.isDigit
    let r4 := r3.drop ds2.length
    let sp := r4.takeWhile Char.isWhitespace
    match r4.drop sp.length with
    | u :: b :: _ =>
      if (u.toUpper == 'G' || u.toUpper == 'M' || u.toUpper == 'K'
            || u.toUpper == 'T') && b.toUpper == 'B' then
        some (String.mk (ds ++ dot ++ ds2 ++ sp ++ [u, b]))
      else none
    | _ => none

/-- Scan for the leftmost `"file size"` occurrence (case-insensitive)
whose continuation matches the size pattern. -/
def fileSizeScan : List Char → Option String
  | [] => none
  | c :: rest =>
    if "file size".data.isPrefixOf ((c :: rest).take 9 |>.map Char.toLower) then
      match matchSizeAt ((c :: rest).drop 9) with
      | some r => some r
      | none => fileSizeScan rest
    else fileSizeScan rest

/-- `re.search(r"File Size[:\s]*(\d+\.?\d*\s*[GMKT]B)", text, re.IGNORECASE)`,
returning `group(1)`. -/
def fileSizeSearch (s : String) : Option String := fileSizeScan s.data

/-- `matchOpt2 r`: the pattern `(?:-[^/]+)?$` consumes `r` exactly. -/
def matchOpt2 : List Char → Bool
  | [] => true
  | '-' :: rest => !rest.isEmpty && rest.all (fun c => !(c == '/'))
  | _ => false

/-- The pattern `(?:-\d{4})?(?:-[^/]+)?$` consumes `r` exactly
(both backtracking alternatives of the optional year group). -/
def matchAfterSeason (r : List Char) : Bool :=
  (match r with
   | '-' :: a :: b :: c :: d :: rest =>
     a.isDigit && b.isDigit && c.isDigit && d.isDigit && matchOpt2 rest
   | _ => false)
  || matchOpt2 r

/-- At a candidate end of the lazy group: `rest` must continue with
`-season-`, a nonempty digit run (the season capture), and then
`matchAfterSeason` up to the end. -/
def seasonDigitsAt (rest : List Char) : Option String :=
  if "-season-".data.isPrefixOf rest then
    let r1 := rest.drop 8
    let ds := r1.takeWhile Char.isDigit
    if !ds.isEmpty && matchAfterSeason (r1.drop ds.length) then some (String.mk ds)
    else none
  else none

/-- Lazy scan of `([^/]+?)` (shortest first, Python backtracking order):
`acc` holds the group so far, reversed. -/
def scanGroup1Lazy : (acc rest : List Char) → Option (String × String)
  | _, [] => none
  | acc, c :: rs =>
    match (if acc.isEmpty then none else seasonDigitsAt (c :: rs)) with
    | some ds => some (String.mk acc.reverse, ds)
    | none => if c == '/' then none else scanGroup1Lazy (c :: acc) rs

/-- Leftmost search for the `/` that starts a match of the primary
series regex (applied to the URL with the `-tamil-movie/?` tail already
stripped). -/
def searchSeason1 : List Char → Option (String × String)
  | [] => none
  | c :: rest =>
    if c == '/' then
      match scanGroup1Lazy [] rest with
      | some r => some r
      | none => searchSeason1 rest
    else searchSeason1 rest

/-- `re.search(r"/([^/]+?)-season-(\d+)(?:-\d{4})?(?:-[^/]+)?-tamil-movie/?$", u)`,
returning the two captures.  Because the tail is anchored at the end of
the string, the match is equivalent to stripping one optional trailing
`/` and the literal `-tamil-movie`, then matching the anchored remainder. -/
def parseSeries1 (u : String) : Option (String × String) :=
  let cs := u.data
  let core := if cs.getLast? == some '/' then cs.dropLast else cs
  if "-tamil-movie".data.isSuffixOf core then
    searchSeason1 (core.take (core.length - 12))
  else none

/-- Greedy-group match attempt at the current position for the fallback
regex: `acc` (reversed) is `([^/]+)`, `rest` must begin `-season-\d`. -/
def matchHereSeason (acc rest : List Char) : Option (String × String) :=
  if acc.isEmpty then none
  else if "-season-".data.isPrefixOf rest then
    let r1 := rest.drop 8
    let ds := r1.takeWhile Char.isDigit
    if ds.isEmpty then none else some (String.mk acc.reverse, String.mk ds)
  else none

/-- Greedy scan of `([^/]+)` (longest first, Python backtracking order). -/
def greedyG1 : (acc rest : List Char) → Option (String × String)
  | acc, [] => matchHereSeason acc []
  | acc, c :: rs =>
    if c == '/' then matchHereSeason acc (c :: rs)
    else
      match greedyG1 (c :: acc) rs with
      | some r => some r
      | none => matchHereSeason acc (c :: rs)

/-- Leftmost search for `re.search(r"/([^/]+)-season-(\d+)", u)`. -/
def searchSeason2 : List Char → Option (String × String)
  | [] => none
  | c :: rest =>
    if c == '/' then
      match greedyG1 [] rest with
      | some r => some r
      | none => searchSeason2 rest
    else searchSeason2 rest

/-- Series-slug and season-number extraction of `_scan_moviesda_episodes`:
the primary regex (requiring a `-tamil-movie` suffix) first, then the
fallback `-season-{digits}` regex. -/
def parseSeriesUrl (u : String) : Option (String × String) :=
  match parseSeries1 u with
  | some r => some r
  | none => searchSeason2 u.data

/-- The pattern `-\d{4}-tamil` begins at `r`. -/
def matchDashYearTamil : List Char → Bool
  | '-' :: a :: b :: c :: d :: rest =>
    a.isDigit && b.isDigit && c.isDigit && d.isDigit &&
      "-tamil".data.isPrefixOf rest
  | _ => false

/-- Greedy-group attempt for the title regex `/([^/]+)-\d{4}-tamil`. -/
def titleHere (acc rest : List Char) : Option (List Char) :=
  if !acc.isEmpty && matchDashYearTamil rest then some acc.reverse else none

/-- Greedy scan of the title group (longest first). -/
def greedyTitleG1 : (acc rest : List Char) → Option (List Char)
  | acc, [] => titleHere acc []
  | acc, c :: rs =>
    if c == '/' then titleHere acc (c :: rs)
    else
      match greedyTitleG1 (c :: acc) rs with
      | some r => some r
      | none => titleHere acc (c :: rs)

/-- Leftmost search for `re.search(r"/([^/]+)-\d{4}-tamil", movie_url)`. -/
def searchTitle : List Char → Option (List Char)
  | [] => none
  | c :: rest =>
    if c == '/' then
      match greedyTitleG1 [] rest with
      | some r => some r
      | none => searchTitle rest
    else searchTitle rest

/-- The movie-title extraction of `scrape_movie`:
`title_match.group(1).replace("-", " ").title()` when the regex matches. -/
def titleFromUrl (u : String) : Option String :=
  (searchTitle u.data).map (fun g1 => pyTitle (dashToSpace (String.mk g1)))

/-- An `<a>` element with an `href` attribute: its href and its stripped
visible text (`get_text(strip=True)`). -/
structure Anchor where
  href : String
  text : String
deriving DecidableEq

/-- A `<li>` element as the program consumes it: its first href-carrying
anchor (`li.find("a", href=True)`, `none` when absent) and its stripped
text. -/
structure LI where
  anchor : Option Anchor
  text : String
deriving DecidableEq

/-- An `<img>` element: `src` and `alt` attributes (missing attributes
read as `""` via `img.get`). -/
structure Img where
  src : String
  alt : String
deriving DecidableEq

/-- A `<picture>` element: the `srcset` of its first `<source>` child
(`none` when there is no `<source>`; a missing attribute reads as `""`)
and the `src` of its first `<img>` child. -/
structure Pic where
  sourceSrcset : Option String
  imgSrc : Option String
deriving DecidableEq

/-- A parsed page, recording exactly the element selections the scraper
performs on a soup. -/
structure Page where
  /-- for each `div.f`, the first href-carrying anchor (skipping
  anchor-less containers): `soup.select("div.f")` + `div.find("a")`. -/
  divF : List Anchor
  /-- for each `div.dlink`, all of its href-carrying anchors, so that
  `soup.select("div.dlink a")` is the flattening and
  `div.find("a", href=True)` is the head of each group. -/
  dlinkDivs : List (List Anchor)
  /-- `soup.find_all("li")`. -/
  listItems : List LI
  /-- `soup.find_all("a", href=True)`. -/
  allAnchors : List Anchor
  /-- `soup.select("li a.coral")` (with `a.get("href", "")`). -/
  liCoral : List Anchor
  /-- `soup.find_all("img")`. -/
  imgs : List Img
  /-- `soup.find_all("picture")`. -/
  pictures : List Pic
  /-- `soup.find("title")`, stripped text. -/
  title : Option String
deriving DecidableEq

/-- The fetch-and-parse primitive `_get_soup`: `none` is a request
failure. -/
def Fetch : Type := String → Option Page

/-- A quality option (an element of the `qualities` list built by
`get_quality_options` and its helpers).  An absent
`is_direct_download` key is `false`; an absent `file_size` key is
`none`. -/
structure Quality where
  quality : String
  url : String
  is_direct_download : Bool
  file_size : Option String
deriving DecidableEq

/-- A download-server link (an element of the list built by
`_get_server_links`). -/
structure Server where
  server_name : String
  level1_url : String
  mp4_url : Option String
deriving DecidableEq

/-- A download entry (an element of the list built by
`get_download_links` / `scrape_movie`). -/
structure Download where
  filename : String
  intermediate_url : String
  direct_links : List Server
  file_size : Option String
deriving DecidableEq

/-- The image set of `get_movie_images`. -/
structure Images where
  poster_url : Option String
  screenshots : List String
deriving DecidableEq

/-- One entry of `result["qualities"]` in `scrape_movie`. -/
structure QualityInfo where
  quality : String
  downloads : List Download
deriving DecidableEq

/-- The result dictionary of `scrape_movie`. -/
structure MovieResult where
  movie_url : String
  title : Option String
  poster_url : Option String
  screenshots : List String
  qualities : List QualityInfo
deriving DecidableEq

/-- `"-original-movie" in href or "-movie-original" in href`. -/
def isOriginalHref (a : Anchor) : Bool :=
  pyIn "-original-movie" a.href || pyIn "-movie-original" a.href

/-- numeric `/movie/{id}/` href whose text contains `"original"`. -/
def isNumericOriginal (a : Anchor) : Bool :=
  isNumericMoviePath a.href && pyIn "original" (strLower a.text)

/-- `"-season-" in href and "-dubbed-movie" in href`. -/
def isSeasonHref (a : Anchor) : Bool :=
  pyIn "-season-" a.href && pyIn "-dubbed-movie" a.href

/-- `any(q in href for q in ["-1080p-", "-720p-", "-480p-", "-360p-"])`. -/
def isQualityHref (a : Anchor) : Bool :=
  pyIn "-1080p-" a.href || pyIn "-720p-" a.href ||
    pyIn "-480p-" a.href || pyIn "-360p-" a.href

/-- numeric `/movie/{id}/` href whose text contains a `\d+x\d+` token. -/
def isNumericDim (a : Anchor) : Bool :=
  isNumericMoviePath a.href && hasDim a.text

/-- numeric `/movie/{id}/` href whose text contains a resolution token
(`re.search(r"(1080p|720p|480p|360p)", text, re.IGNORECASE)`). -/
def isNumericRes (a : Anchor) : Bool :=
  isNumericMoviePath a.href &&
    (pyIn "1080p" (strLower a.text) || pyIn "720p" (strLower a.text) ||
      pyIn "480p" (strLower a.text) || pyIn "360p" (strLower a.text))

/-- The image-scanning pass of `get_movie_images` over
`soup.find_all("img")`: a matching poster overwrites any earlier one, a
matching screenshot is appended; an empty `src` is skipped. -/
def imgScan (base_url : String) : List Img → Images → Images
  | [], acc => acc
  | i :: rest, acc =>
    if i.src = "" then imgScan base_url rest acc
    else
      let abs_src := mkFull base_url i.src
      if pyIn "/uploads/posters/" abs_src || pyIn "poster" (strLower i.alt) then
        imgScan base_url rest { acc with poster_url := some abs_src }
      else if pyIn "/uploads/screen_shots/" abs_src
          || pyIn "screenshot" (strLower i.alt) then
        imgScan base_url rest { acc with screenshots := acc.screenshots ++ [abs_src] }
      else imgScan base_url rest acc

/-- The `<source>` branch of the `<picture>` pass: overwrites the
poster whenever the `srcset` is nonempty and contains the poster path
segment. -/
def picSourceStep (base_url : String) (acc : Images) : Option String → Images
  | some srcset =>
    if !(srcset = "") && pyIn "/uploads/posters/" srcset then
      { acc with poster_url := some (mkFull base_url (firstToken srcset)) }
    else acc
  | none => acc

/-- The `<img>` branch of the `<picture>` pass: runs only when no poster
is set (the stored poster is never `some ""`, so Python's truthiness
test on `images["poster_url"]` coincides with `Option.isNone`). -/
def picImgStep (base_url : String) (acc : Images) : Option String → Images
  | some src =>
    if acc.poster_url.isNone then
      if !(src = "") && pyIn "/uploads/posters/" src then
        { acc with poster_url := some (mkFull base_url src) }
      else acc
    else acc
  | none => acc

/-- The `<picture>` pass of `get_movie_images`: for each `<picture>`,
the `<source>` branch then the `<img>` branch. -/
def picScan (base_url : String) : List Pic → Images → Images
  | [], acc => acc
  | pc :: rest, acc =>
    picScan base_url rest
      (picImgStep base_url (picSourceStep base_url acc pc.sourceSrcset) pc.imgSrc)

/-- `get_movie_images(soup, movie_url)`: poster and screenshots.  The
pipeline always passes `movie_url`, so the base URL is its origin (the
`movie_url=None` default branch of the source is never exercised). -/
def get_movie_images (page : Page) (movie_url : String) : Images :=
  let base_url := originOf movie_url
  picScan base_url page.pictures (imgScan base_url page.imgs ⟨none, []⟩)

/-- The anchor scan of `_get_quality_from_original_page` over `div.f`
anchors: keep quality-pattern hrefs and numeric hrefs with a resolution
token in the text. -/
def origScan (base_url : String) : List Anchor → List Quality
  | [] => []
  | a :: rest =>
    if isQualityHref a then
      ⟨a.text, mkFull base_url a.href, false, none⟩ :: origScan base_url rest
    else if isNumericRes a then
      ⟨a.text, mkFull base_url a.href, false, none⟩ :: origScan base_url rest
    else origScan base_url rest

/-- `_get_quality_from_original_page(original_url, base_url)` (the
pipeline always passes `base_url`, so the recompute-default branch is
never exercised). -/
def get_quality_from_original_page (fetch : Fetch)
    (original_url base_url : String) : List Quality :=
  match fetch original_url with
  | none => []
  | some page => origScan base_url page.divF

/-- `episodes[-1]["file_size"] = sz`: update the last element. -/
def setLastSize : List Quality → String → List Quality
  | [], _ => []
  | [q], sz => [{ q with file_size := some sz }]
  | q :: rest, sz => q :: setLastSize rest sz

/-- The anchor step of the season-page list-item scan: a `<li>` whose
first anchor has `/download/` in its href appends one episode entry
(flagged direct). -/
def seasonAnchorStep (base_url : String) (eps : List Quality) :
    Option Anchor → List Quality
  | some a =>
    if pyIn "/download/" a.href then
      eps ++ [⟨if a.text = "" then "Episode" else a.text,
               mkFull base_url a.href, true, none⟩]
    else eps
  | none => eps

/-- The size update of the season scan: a `File Size` match updates the
last appended entry (`current_episode` is set iff the accumulator is
nonempty). -/
def seasonSizeStep (eps : List Quality) : Option String → List Quality
  | some sz => if eps.isEmpty then eps else setLastSize eps sz
  | none => eps

def seasonScan (base_url : String) : List LI → List Quality → List Quality
  | [], eps => eps
  | li :: rest, eps =>
    seasonScan base_url rest
      (seasonSizeStep (seasonAnchorStep base_url eps li.anchor)
        (fileSizeSearch li.text))

/-- `_get_episodes_from_season_page(season_url, base_url)`: scan the
list items, then reverse (source listing order is descending). -/
def get_episodes_from_season_page (fetch : Fetch)
    (season_url base_url : String) : List Quality :=
  match fetch season_url with
  | none => []
  | some page => (seasonScan base_url page.listItems []).reverse

/-- The probed episode URL
`f"{base_url}/download/{series_slug}-season-{season_num}-epi-{epi_str}/"`. -/
def epUrl (base slug sn : String) (i : Nat) : String :=
  base ++ "/download/" ++ slug ++ "-season-" ++ sn ++ "-epi-" ++ zfill2 i ++ "/"

/-- The probed episode's display title:
`title_tag.get_text(strip=True).split(" - ")[0]` when a `<title>`
exists, else the default `f"Episode {epi_num}"`. -/
def episodeTitle (page : Page) (i : Nat) : String :=
  match page.title with
  | some t => String.mk (takeUntilSep " - ".data t.data)
  | none => "Episode " ++ toString i

/-- The probing loop of `_scan_moviesda_episodes`
(`for epi_num in range(1, 21)`), with the remaining iteration budget as
fuel: stop at the first fetch failure or first page without
`div.dlink a` anchors. -/
def scanLoop (fetch : Fetch) (base slug sn : String) : Nat → Nat → List Quality
  | 0, _ => []
  | fuel + 1, epi =>
    match fetch (epUrl base slug sn epi) with
    | none => []
    | some page =>
      if page.dlinkDivs.flatten.isEmpty then []
      else ⟨episodeTitle page epi, epUrl base slug sn epi, true, none⟩ ::
        scanLoop fetch base slug sn fuel (epi + 1)

/-- `_scan_moviesda_episodes(movie_url, base_url)`: parse slug and
season from the URL, then probe episodes 1..20 (the final
`episodes.reverse()` of the source is commented out, so the order is the
probe order). -/
def scan_moviesda_episodes (fetch : Fetch) (movie_url base_url : String) :
    List Quality :=
  match parseSeriesUrl movie_url with
  | none => []
  | some (slug, sn) => scanLoop fetch base_url slug sn 20 1

/-- The `div.f` anchor loop of `get_quality_options`.  The Boolean marks
an early `return` (Original / numeric-Original / season page with at
least one episode); otherwise direct quality anchors accumulate in
document order and the pair is returned when the anchors are
exhausted. -/
def qoLoop (fetch : Fetch) (base_url : String) :
    List Anchor → List Quality → Bool × List Quality
  | [], qs => (false, qs)
  | a :: rest, qs =>
    if isOriginalHref a then
      (true, get_quality_from_original_page fetch (mkFull base_url a.href) base_url)
    else if isNumericOriginal a then
      (true, get_quality_from_original_page fetch (mkFull base_url a.href) base_url)
    else
      let seasonQs :=
        if isSeasonHref a then
          get_episodes_from_season_page fetch (mkFull base_url a.href) base_url
        else []
      if !seasonQs.isEmpty then (true, seasonQs)
      else
        let qs1 :=
          if isQualityHref a then
            qs ++ [⟨a.text, mkFull base_url a.href, false, none⟩]
          else if isNumericDim a then
            qs ++ [⟨a.text, mkFull base_url a.href, true, none⟩]
          else qs
        qoLoop fetch base_url rest qs1

/-- `get_quality_options(movie_url)`: fetch the movie page, extract
images, run the anchor loop, and on an empty fall-through result apply
the sequential-probing fallback when the URL contains `"season"` and the
origin contains `"moviesda"`.  A fetch failure returns `([], {})`; the
two reads of the empty dict (`images.get`) make it behave as
`⟨none, []⟩`. -/
def get_quality_options (fetch : Fetch) (movie_url : String) :
    List Quality × Images :=
  match fetch movie_url with
  | none => ([], ⟨none, []⟩)
  | some page =>
    let base_url := originOf movie_url
    let images := get_movie_images page movie_url
    let r := qoLoop fetch base_url page.divF []
    if r.1 then (r.2, images)
    else if r.2.isEmpty && pyIn "season" (strLower movie_url)
        && pyIn "moviesda" base_url then
      let episodes := scan_moviesda_episodes fetch movie_url base_url
      (if episodes.isEmpty then r.2 else episodes, images)
    else (r.2, images)

/-- CDN name fragments recognised at level 2 (`_get_final_mp4_url`). -/
def cdnDomains2 : List String :=
  ["biggshare", "hotshare", "dubshare", "dubmv", "uptodub", "uptomkv"]

/-- CDN name fragments recognised at level 3 (`_follow_final_redirect`;
note the absence of `"dubmv"`). -/
def cdnDomains3 : List String :=
  ["biggshare", "hotshare", "dubshare", "uptodub", "uptomkv"]

/-- `is_mp4 = ".mp4" in href.lower()`. -/
def isMp4 (href : String) : Bool := pyIn ".mp4" (strLower href)

/-- `is_cdn = any(cdn in href.lower() for cdn in cdn_domains)` at
level 2. -/
def isCdn2 (href : String) : Bool :=
  cdnDomains2.any (fun c => pyIn c (strLower href))

/-- `is_cdn` at level 3. -/
def isCdn3 (href : String) : Bool :=
  cdnDomains3.any (fun c => pyIn c (strLower href))

/-- `_follow_final_redirect(url)`: one fetch; the first anchor anywhere
on the page whose href contains `.mp4` or a level-3 CDN fragment is
returned unchanged. -/
def follow_final_redirect (fetch : Fetch) (url : String) : Option String :=
  match fetch url with
  | none => none
  | some page =>
    page.allAnchors.findSome? fun a =>
      if isMp4 a.href || isCdn3 a.href then some a.href else none

/-- The `div.dlink` loop of `_get_final_mp4_url` over the first anchor
of each container: a terminal href (`.mp4` substring or level-2 CDN
fragment) is returned unchanged; otherwise an `http...` href containing
`"download"` triggers one level-3 recursion, and on its failure the loop
continues with the next container. -/
def finalLoop (fetch : Fetch) : List Anchor → Option String
  | [] => none
  | a :: rest =>
    if isMp4 a.href || isCdn2 a.href then some a.href
    else if pyStartsWith a.href "http" && pyIn "download" (strLower a.href) then
      match follow_final_redirect fetch a.href with
      | some f => some f
      | none => finalLoop fetch rest
    else finalLoop fetch rest

/-- `_get_final_mp4_url(level1_url)`: fetch the level-1 page, run the
`div.dlink` loop, and finally scan every anchor on the page for a
terminal href. -/
def get_final_mp4_url (fetch : Fetch) (level1_url : String) : Option String :=
  match fetch level1_url with
  | none => none
  | some page =>
    match finalLoop fetch (page.dlinkDivs.filterMap List.head?) with
    | some f => some f
    | none =>
      page.allAnchors.findSome? fun a =>
        if isMp4 a.href || isCdn2 a.href then some a.href else none

/-- `_follow_final_redirect` instrumented with its fetch count (always
exactly one `_get_soup` call). -/
def follow_final_redirectC (fetch : Fetch) (url : String) : Option String × Nat :=
  (follow_final_redirect fetch url, 1)

/-- The `div.dlink` loop instrumented with its fetch count: each
level-3 recursion contributes the count of `follow_final_redirectC`. -/
def finalLoopC (fetch : Fetch) : List Anchor → Option String × Nat
  | [] => (none, 0)
  | a :: rest =>
    if isMp4 a.href || isCdn2 a.href then (some a.href, 0)
    else if pyStartsWith a.href "http" && pyIn "download" (strLower a.href) then
      match follow_final_redirectC fetch a.href with
      | (some f, c) => (some f, c)
      | (none, c) =>
        let rc := finalLoopC fetch rest
        (rc.1, c + rc.2)
    else finalLoopC fetch rest

/-- `_get_final_mp4_url` instrumented with its total `_get_soup` count
(the level-1 fetch plus all recursive fetches). -/
def get_final_mp4_urlC (fetch : Fetch) (level1_url : String) :
    Option String × Nat :=
  match fetch level1_url with
  | none => (none, 1)
  | some page =>
    let rc := finalLoopC fetch (page.dlinkDivs.filterMap List.head?)
    ((match rc.1 with
      | some f => some f
      | none =>
        page.allAnchors.findSome? fun a =>
          if isMp4 a.href || isCdn2 a.href then some a.href else none),
     1 + rc.2)

/-- The `div.dlink` loop of `_get_server_links`: an `http...` href is
appended as a server (resolving its final URL), and the loop `break`s as
soon as a resolution succeeds (`mp4_url` is never `some ""`, so Python's
truthiness test coincides with `Option.isSome`). -/
def serverLoop (fetch : Fetch) : List Anchor → List Server
  | [] => []
  | a :: rest =>
    if pyStartsWith a.href "http" then
      match get_final_mp4_url fetch a.href with
      | some f => [⟨a.text, a.href, some f⟩]
      | none => ⟨a.text, a.href, none⟩ :: serverLoop fetch rest
    else serverLoop fetch rest

/-- The fallback loop of `_get_server_links` over all anchors:
download/server text, external `http...` href, same break-on-success
behaviour. -/
def serverFallbackLoop (fetch : Fetch) : List Anchor → List Server
  | [] => []
  | a :: rest =>
    if (pyIn "download" (strLower a.text) || pyIn "server" (strLower a.text))
        && (pyStartsWith a.href "http" && !pyIn "moviesda15.com" a.href
              && !pyIn "isaidub.love" a.href) then
      match get_final_mp4_url fetch a.href with
      | some f => [⟨a.text, a.href, some f⟩]
      | none => ⟨a.text, a.href, none⟩ :: serverFallbackLoop fetch rest
    else serverFallbackLoop fetch rest

/-- `_get_server_links(intermediate_url)`. -/
def get_server_links (fetch : Fetch) (intermediate_url : String) : List Server :=
  match fetch intermediate_url with
  | none => []
  | some page =>
    let servers := serverLoop fetch (page.dlinkDivs.filterMap List.head?)
    if servers.isEmpty then serverFallbackLoop fetch page.allAnchors
    else servers

/-- `downloads[-1]["file_size"] = sz`. -/
def setLastSizeD : List Download → String → List Download
  | [], _ => []
  | [d], sz => [{ d with file_size := some sz }]
  | d :: rest, sz => d :: setLastSizeD rest sz

/-- The `li a.coral` scan of `get_download_links`. -/
def coralScan (base_url : String) : List Anchor → List Download
  | [] => []
  | a :: rest =>
    if pyIn "/download/" a.href then
      ⟨a.text, mkFull base_url a.href, [], none⟩ :: coralScan base_url rest
    else coralScan base_url rest

/-- The fallback scan of `get_download_links` over all anchors
(`/download/` href and `.mp4`/`hd` in the text). -/
def mp4TextScan (base_url : String) : List Anchor → List Download
  | [] => []
  | a :: rest =>
    if pyIn "/download/" a.href
        && (pyIn ".mp4" (strLower a.text) || pyIn "hd" (strLower a.text)) then
      ⟨a.text, mkFull base_url a.href, [], none⟩ :: mp4TextScan base_url rest
    else mp4TextScan base_url rest

/-- The size update shared by the download scans: a `File Size` match
updates the last entry of a nonempty accumulator
(`downloads[-1]` / `current_download`). -/
def sizeStep (dls : List Download) : Option String → List Download
  | some sz => if dls.isEmpty then dls else setLastSizeD dls sz
  | none => dls

/-- The file-size pass of `get_download_links` over all list items. -/
def sizePass : List LI → List Download → List Download
  | [], dls => dls
  | li :: rest, dls => sizePass rest (sizeStep dls (fileSizeSearch li.text))

/-- `get_download_links(quality_url)`: collect entries, attach sizes,
then resolve each entry's servers through the redirect chain walker. -/
def get_download_links (fetch : Fetch) (quality_url : String) : List Download :=
  match fetch quality_url with
  | none => []
  | some page =>
    let base_url := originOf quality_url
    let downloads := coralScan base_url page.liCoral
    let downloads := if downloads.isEmpty then mp4TextScan base_url page.allAnchors
      else downloads
    let downloads := sizePass page.listItems downloads
    downloads.map fun d =>
      { d with direct_links := get_server_links fetch d.intermediate_url }

/-- The isaidub-style list scan of `scrape_movie` for a direct-download
quality page without `div.dlink` anchors: one entry per `<li>` whose
first anchor has `/download/` in its href, servers resolved immediately;
`File Size` lines update the most recent entry. -/
def listAnchorStep (fetch : Fetch) (base_url : String) (dls : List Download) :
    Option Anchor → List Download
  | some a =>
    if pyIn "/download/" a.href then
      dls ++ [⟨a.text, mkFull base_url a.href,
               get_server_links fetch (mkFull base_url a.href), some ""⟩]
    else dls
  | none => dls

def listDownloadScan (fetch : Fetch) (base_url : String) :
    List LI → List Download → List Download
  | [], dls => dls
  | li :: rest, dls =>
    listDownloadScan fetch base_url rest
      (sizeStep (listAnchorStep fetch base_url dls li.anchor)
        (fileSizeSearch li.text))

/-- The per-quality body of the `scrape_movie` loop: a direct-download
quality whose page has `div.dlink a` anchors yields exactly one entry
(the whole page); otherwise its list items are scanned; a
non-direct quality goes through `get_download_links`; a fetch failure
yields an empty download list. -/
def qualityInfoFor (fetch : Fetch) (q : Quality) : QualityInfo :=
  if q.is_direct_download then
    match fetch q.url with
    | none => ⟨q.quality, []⟩
    | some page =>
      if !page.dlinkDivs.flatten.isEmpty then
        ⟨q.quality, [⟨q.quality, q.url, get_server_links fetch q.url, some ""⟩]⟩
      else
        ⟨q.quality, listDownloadScan fetch (originOf q.url) page.listItems []⟩
  else
    ⟨q.quality, get_download_links fetch q.url⟩

/-- `scrape_movie(movie_url)`: title from the URL, images and quality
options from the movie page, one `QualityInfo` per quality option. -/
def scrape_movie (fetch : Fetch) (movie_url : String) : MovieResult :=
  let qi := get_quality_options fetch movie_url
  { movie_url := movie_url
    title := titleFromUrl movie_url
    poster_url := qi.2.poster_url
    screenshots := qi.2.screenshots
    qualities := qi.1.map (qualityInfoFor fetch) }

/-- Python `s.endswith(suf)`. -/
def pyEndsWith (s suf : String) : Bool := suf.data.isSuffixOf s.data

/-- Every anchor the program can read off a page. -/
def anchorsOf (p : Page) : List Anchor :=
  p.divF ++ p.allAnchors ++ p.liCoral ++ p.dlinkDivs.flatten
    ++ p.listItems.filterMap (fun li => li.anchor)

/-- A well-formed href as served by a real site: either an absolute
`http(s)://host...` URL, or a relative reference with no scheme of its
own and no network-path prefix. -/
def wellFormedHref (h : String) : Bool :=
  if pyStartsWith h "http" then isAbsoluteUrl h
  else !hasScheme h && !pyStartsWith h "//"

/-- All hrefs, image sources and `<picture>` sources of a page are
well-formed. -/
def pageWF (p : Page) : Bool :=
  (anchorsOf p).all (fun a => wellFormedHref a.href) &&
  p.imgs.all (fun i => wellFormedHref i.src) &&
  p.pictures.all (fun pc =>
    (match pc.sourceSrcset with
     | some s => wellFormedHref (firstToken s)
     | none => true) &&
    (match pc.imgSrc with
     | some s => wellFormedHref s
     | none => true))

/-- Every page the fetch environment can produce is well-formed. -/
def envWF (fetch : Fetch) : Prop :=
  ∀ u p, fetch u = some p → pageWF p = true

/-- The network location (host) of a URL of the form
`scheme://host...`, `""` otherwise. -/
def hostOf (u : String) : String :=
  let cs := u.data
  let s := cs.takeWhile (fun c => !(c == ':'))
  match cs.drop s.length with
  | _ :: a :: b :: r =>
    if a == '/' && b == '/' then
      String.mk (r.takeWhile (fun c => !(c == '/')))
    else ""
  | _ => ""

/-- Modelled from the spec's words, for comparison with the code's
terminal test: "an anchor href is terminal if it ends in a media-file
extension or its hostname matches one of a fixed set of known CDN name
fragments" (the only media extension the program knows is `.mp4`). -/
def specTerminal (href : String) : Bool :=
  pyEndsWith (strLower href) ".mp4"
    || cdnDomains2.any (fun c => pyIn c (hostOf href))

/-- The probing success condition of `_scan_moviesda_episodes` at
episode `i`: the fetch succeeds and the page has `div.dlink a`
anchors. -/
def epOk (fetch : Fetch) (base slug sn : String) (i : Nat) : Bool :=
  match fetch (epUrl base slug sn i) with
  | some p => !p.dlinkDivs.flatten.isEmpty
  | none => false

/-- The anchor which classifies at all in the `get_quality_options`
loop: Original / numeric-Original / season-with-episodes / direct
quality / numeric-dimension. -/
def classifiesAnchor (fetch : Fetch) (base : String) (a : Anchor) : Bool :=
  isOriginalHref a || isNumericOriginal a ||
    (isSeasonHref a &&
      !(get_episodes_from_season_page fetch (mkFull base a.href) base).isEmpty) ||
    isQualityHref a || isNumericDim a

/-- The episode labels a season page contributes, in document order. -/
def seasonLabels (lis : List LI) : List String :=
  lis.filterMap fun li =>
    match li.anchor with
    | some a =>
      if pyIn "/download/" a.href then
        some (if a.text = "" then "Episode" else a.text)
      else none
    | none => none

/-- A list item whose first anchor carries the download-page marker. -/
def liHasDownloadAnchor (li : LI) : Bool :=
  match li.anchor with
  | some a => pyIn "/download/" a.href
  | none => false

/-- The number of `div.dlink` lead anchors on the page a URL fetches to
(`0` on fetch failure): the breadth bound of the redirect walker. -/
def level1AnchorCount (fetch : Fetch) (url : String) : Nat :=
  match fetch url with
  | some p => (p.dlinkDivs.filterMap List.head?).length
  | none => 0

/-- A `<picture>` whose `<source>` qualifies as a poster candidate. -/
def picHasPosterSource (pc : Pic) : Bool :=
  match pc.sourceSrcset with
  | some s => !(s = "") && pyIn "/uploads/posters/" s
  | none => false

/-- A page with no element selections at all. -/
def emptyPage : Page := ⟨[], [], [], [], [], [], [], none⟩

/-- Concrete environment: a download page whose single server resolves
to a relative terminal href. -/
def cex1Fetch : Fetch := fun u =>
  if u = "http://site/dl/" then
    some { emptyPage with dlinkDivs := [[⟨"http://srv/download/page", "Server 1"⟩]] }
  else if u = "http://srv/download/page" then
    some { emptyPage with dlinkDivs := [[⟨"ep1.mp4", ""⟩]] }
  else none

/-- Concrete environment exercising the whole pipeline on well-formed
pages. -/
def wit1Fetch : Fetch := fun u =>
  if u = "http://moviesda15.com/foo-2024-tamil-movie/" then
    some { emptyPage with
      divF := [⟨"/foo-2024-1080p-hd/", "1080p HD"⟩],
      imgs := [⟨"/uploads/posters/foo.jpg", ""⟩] }
  else if u = "http://moviesda15.com/foo-2024-1080p-hd/" then
    some { emptyPage with
      liCoral := [⟨"/download/foo-file/", "foo.mp4"⟩] }
  else if u = "http://moviesda15.com/download/foo-file/" then
    some { emptyPage with dlinkDivs := [[⟨"http://dl.server.net/f/1", "Server 1"⟩]] }
  else if u = "http://dl.server.net/f/1" then
    some { emptyPage with dlinkDivs := [[⟨"http://biggshare.xyz/foo.mp4", "HD"⟩]] }
  else none

/-- Concrete environment: a level-1 page with three `download` anchors,
none of which resolves, forcing four fetches in one walker call. -/
def cex2Fetch : Fetch := fun u =>
  if u = "http://l1/" then
    some { emptyPage with dlinkDivs :=
      [[⟨"http://r1/download", "S1"⟩], [⟨"http://r2/download", "S2"⟩],
       [⟨"http://r3/download", "S3"⟩]] }
  else if u = "http://r1/download" then some emptyPage
  else if u = "http://r2/download" then some emptyPage
  else if u = "http://r3/download" then some emptyPage
  else none

/-- A movie page listing a season anchor before an Original anchor. -/
def cex3Page : Page :=
  { emptyPage with divF :=
    [⟨"/show-season-2-tamil-dubbed-movie/", "Season 2"⟩,
     ⟨"/show-original-movie/", "Original"⟩] }

/-- Concrete environment: a movie page listing a season anchor before an
Original anchor, where the season page yields one episode. -/
def cex3Fetch : Fetch := fun u =>
  if u = "http://isaidub.love/show-page/" then some cex3Page
  else if u = "http://isaidub.love/show-season-2-tamil-dubbed-movie/" then
    some { emptyPage with listItems := [⟨some ⟨"/download/ep1/", "Ep 01"⟩, "Ep 01"⟩] }
  else if u = "http://isaidub.love/show-original-movie/" then
    some { emptyPage with divF := [⟨"/show-1080p-file/", "1080p HD"⟩] }
  else none

/-- A movie page with an unclassifiable anchor before an Original
anchor. -/
def wit3Page : Page :=
  { emptyPage with divF :=
    [⟨"/pic-gallery.html", "Photos"⟩,
     ⟨"/pic-original-movie/", "Original"⟩] }

/-- Concrete environment: an unclassifiable anchor before an Original
anchor. -/
def wit3Fetch : Fetch := fun u =>
  if u = "http://moviesda15.com/pic-page/" then some wit3Page
  else if u = "http://moviesda15.com/pic-original-movie/" then
    some { emptyPage with divF := [⟨"/pic-720p-hd/", "720p"⟩] }
  else none

/-- The probed URLs of episodes 1..7 of the witness series. -/
def c4urls : List String :=
  (List.range' 1 7).map (epUrl "http://moviesda15.com" "myshow" "01")

/-- Concrete environment: episodes 1..7 exist (pages with `div.dlink a`
anchors), episode 8 does not. -/
def c4Fetch : Fetch := fun u =>
  if u ∈ c4urls then some { emptyPage with dlinkDivs := [[⟨"http://dl/x", ""⟩]] }
  else none

/-- Concrete environment: a season page listing episodes in descending
document order. -/
def c5Fetch : Fetch := fun u =>
  if u = "http://isaidub.love/season-2/" then
    some { emptyPage with listItems :=
      [⟨some ⟨"/download/e3/", "Ep03"⟩, "Ep03"⟩,
       ⟨some ⟨"/download/e2/", "Ep02"⟩, "Ep02"⟩,
       ⟨some ⟨"/download/e1/", "Ep01"⟩, "Ep01"⟩] }
  else none

/-- Concrete environment: the level-1 page directly exposes a
`movie_1080p.mp4` anchor. -/
def c6wFetch : Fetch := fun u =>
  if u = "http://l1/" then
    some { emptyPage with dlinkDivs :=
      [[⟨"https://cdn.example.org/files/movie_1080p.mp4", "Server 1"⟩]] }
  else none

/-- Concrete environment: a terminal href that contains `.mp4` in the
middle of its path (query string follows). -/
def cex6Fetch : Fetch := fun u =>
  if u = "http://l1b/" then
    some { emptyPage with dlinkDivs := [[⟨"http://host/clip.mp4?sig=1", ""⟩]] }
  else none

/-- A direct-download quality whose page has `div.dlink a` anchors. -/
def c7qd : Quality := ⟨"Episode 1", "http://m.com/download/e1/", true, none⟩

/-- A direct-download quality whose page is an isaidub-style list. -/
def c7ql : Quality := ⟨"720p", "http://isaidub.love/movie/9/", true, none⟩

/-- A page exposing `div.dlink` server anchors directly. -/
def c7PageD : Page :=
  { emptyPage with dlinkDivs := [[⟨"http://s1/x", "S1"⟩], [⟨"http://s2/x", "S2"⟩]] }

/-- An isaidub-style list page with two qualifying list items. -/
def c7PageL : Page :=
  { emptyPage with listItems :=
    [⟨some ⟨"/download/f1/", "file1"⟩, "file1"⟩,
     ⟨none, "File Size: 700MB"⟩,
     ⟨some ⟨"/other/x", "noise"⟩, "noise"⟩,
     ⟨some ⟨"/download/f2/", "file2"⟩, "file2"⟩] }

/-- Concrete environment for the two direct-download page shapes. -/
def c7Fetch : Fetch := fun u =>
  if u = "http://m.com/download/e1/" then some c7PageD
  else if u = "http://isaidub.love/movie/9/" then some c7PageL
  else none

/-- A series URL with no classifiable anchors on its page. -/
def c8u : String := "http://moviesda15.com/show-season-1"

/-- Concrete environment: the movie page has no anchors at all, but the
probing fallback finds episode 1. -/
def cex8Fetch : Fetch := fun u =>
  if u = c8u then some emptyPage
  else if u = "http://moviesda15.com/download/show-season-1-epi-01/" then
    some { emptyPage with dlinkDivs := [[⟨"x", ""⟩]] }
  else none

/-- Concrete environment: one movie page whose single quality page
fails to fetch, and one movie page with only an unclassifiable
anchor. -/
def wit8Fetch : Fetch := fun u =>
  if u = "http://m.com/a-movie/" then
    some { emptyPage with divF := [⟨"/a-1080p-x/", "1080p"⟩] }
  else if u = "http://m.com/b-movie/" then
    some { emptyPage with divF := [⟨"/plain.html", "About"⟩] }
  else none

/-- A movie page carrying a plain poster `<img>` and a `<picture>` whose
`<source>` also matches the poster path. -/
def cex9Page : Page :=
  { emptyPage with
    imgs := [⟨"/uploads/posters/A.jpg", ""⟩],
    pictures := [⟨some "/uploads/posters/B.jpg", none⟩] }

/-- A movie page with a poster `<img>` and `<picture>` elements with no
qualifying `<source>`. -/
def wit9Page : Page :=
  { emptyPage with
    imgs := [⟨"/uploads/posters/A.jpg", ""⟩],
    pictures := [⟨some "/uploads/banners/C.jpg", some "/uploads/posters/D.jpg"⟩] }

/-- Invariant: every URL in an `Images` accumulator is absolute. -/
def ImagesAbs (im : Images) : Prop :=
  (∀ p, im.poster_url = some p → isAbsoluteUrl p = true) ∧
  (∀ s ∈ im.screenshots, isAbsoluteUrl s = true)

/-- Invariant: a download entry whose intermediate URL is absolute and
whose server links carry `http...` absolute level-1 URLs. -/
def DownloadAbs (d : Download) : Prop :=
  isAbsoluteUrl d.intermediate_url = true ∧
  ∀ sv ∈ d.direct_links,
    pyStartsWith sv.level1_url "http" = true ∧ isAbsoluteUrl sv.level1_url = true

theorem data_append (s t : String) : (s ++ t).data = s.data ++ t.data := by
  cases s; cases t; rfl

theorem startsHost_append (r v : List Char) (h : startsHost r = true) :
    startsHost (r ++ v) = true := by
  rcases r with _ | ⟨a, _ | ⟨b, _ | ⟨d, t⟩⟩⟩ <;> simp_all [startsHost]

theorem isAbsChars_append (cs : List Char) :
    ∀ (seen : Bool) (v : List Char), isAbsChars cs seen = true →
      isAbsChars (cs ++ v) seen = true := by
  induction cs with
  | nil => intro seen v h; simp [isAbsChars] at h
  | cons c rest ih =>
    intro seen v h
    simp only [isAbsChars, List.cons_append] at h ⊢
    by_cases hc : (c == ':') = true
    · rw [if_pos hc] at h ⊢
      simp only [Bool.and_eq_true] at h ⊢
      exact ⟨h.1, startsHost_append _ _ h.2⟩
    · rw [if_neg hc] at h ⊢
      simp only [Bool.and_eq_true] at h ⊢
      exact ⟨h.1, ih true v h.2⟩

theorem isAbsoluteUrl_append (u v : String) (h : isAbsoluteUrl u = true) :
    isAbsoluteUrl (u ++ v) = true := by
  unfold isAbsoluteUrl at h ⊢
  rw [data_append]
  exact isAbsChars_append _ _ _ h

theorem wf_http_abs (h : String) (hw : wellFormedHref h = true)
    (hs : pyStartsWith h "http" = true) : isAbsoluteUrl h = true := by
  unfold wellFormedHref at hw
  simpa [hs] using hw

theorem mkFull_abs (base h : String) (hb : isAbsoluteUrl base = true)
    (hw : wellFormedHref h = true) : isAbsoluteUrl (mkFull base h) = true := by
  unfold mkFull
  by_cases hs : pyStartsWith h "http" = true
  · simpa [hs] using wf_http_abs h hw hs
  · simp only [hs, if_false, Bool.false_eq_true]
    unfold wellFormedHref at hw
    rw [if_neg hs] at hw
    simp only [Bool.and_eq_true, Bool.not_eq_true'] at hw
    unfold urljoin
    by_cases h0 : h = ""
    · simpa [h0] using hb
    · rw [if_neg h0, hw.1, hw.2]
      simp only [Bool.false_eq_true, if_false]
      by_cases h1 : pyStartsWith h "/" = true
      · simpa [h1] using isAbsoluteUrl_append _ _ hb
      · simp only [h1, if_false, Bool.false_eq_true]
        exact isAbsoluteUrl_append _ _ (isAbsoluteUrl_append _ _ hb)

theorem schemeChar_colon : schemeChar ':' = false := by decide

theorem isAbsChars_decomp (cs : List Char) :
    ∀ seen, isAbsChars cs seen = true →
      ∃ s r, cs = s ++ ':' :: r ∧ (∀ c ∈ s, schemeChar c = true) ∧
        (seen = true ∨ s ≠ []) ∧ startsHost r = true := by
  induction cs with
  | nil => intro seen h; simp [isAbsChars] at h
  | cons c rest ih =>
    intro seen h
    simp only [isAbsChars] at h
    by_cases hc : (c == ':') = true
    · rw [if_pos hc] at h
      simp only [Bool.and_eq_true] at h
      refine ⟨[], rest, ?_, by simp, Or.inl h.1, h.2⟩
      simp [beq_iff_eq.mp hc]
    · rw [if_neg hc] at h
      simp only [Bool.and_eq_true] at h
      obtain ⟨s, r, hcs, hsc, _, hsh⟩ := ih true h.2
      refine ⟨c :: s, r, by simp [hcs], ?_, Or.inr (by simp), hsh⟩
      intro x hx
      rcases List.mem_cons.mp hx with hx | hx
      · rw [hx]; exact h.1
      · exact hsc x hx

theorem takeWhile_scheme (r : List Char) :
    ∀ s : List Char, (∀ c ∈ s, schemeChar c = true) →
      (s ++ ':' :: r).takeWhile (fun c => !(c == ':')) = s := by
  intro s
  induction s with
  | nil => simp [List.takeWhile_cons]
  | cons c cs ih =>
    intro hs
    have hcch : schemeChar c = true := hs c (by simp)
    have hc : (c == ':') = false := by
      cases hbe : c == ':'
      · rfl
      · rw [beq_iff_eq.mp hbe] at hcch
        rw [schemeChar_colon] at hcch
        exact absurd hcch (by simp)
    simp only [List.cons_append, List.takeWhile_cons, hc]
    simp only [Bool.not_false, if_true]
    rw [ih (fun x hx => hs x (by simp [hx]))]

theorem isAbsChars_build (d : Char) (t : List Char) (hd : (d == '/') = false) :
    ∀ (s : List Char), (∀ c ∈ s, schemeChar c = true) →
      ∀ seen, (seen = true ∨ s ≠ []) →
        isAbsChars (s ++ ':' :: '/' :: '/' :: d :: t) seen = true := by
  intro s
  induction s with
  | nil =>
    rintro _ seen (hs | hs)
    · subst hs; simp [isAbsChars, startsHost, hd]
    · simp at hs
  | cons c cs ih =>
    intro hsc seen _
    have hcch : schemeChar c = true := hsc c (by simp)
    have hc : (c == ':') = false := by
      cases hbe : c == ':'
      · rfl
      · rw [beq_iff_eq.mp hbe] at hcch
        rw [schemeChar_colon] at hcch
        exact absurd hcch (by simp)
    simp only [List.cons_append, isAbsChars, hc, if_false, Bool.false_eq_true,
      hcch, Bool.true_and]
    exact ih (fun x hx => hsc x (by simp [hx])) true (Or.inl rfl)

theorem originOf_abs (u : String) (h : isAbsoluteUrl u = true) :
    isAbsoluteUrl (originOf u) = true := by
  unfold isAbsoluteUrl at h
  obtain ⟨s, r, hcs, hsc, hne, hsh⟩ := isAbsChars_decomp u.data false h
  rcases hne with hne | hne
  · exact absurd hne (by simp)
  rcases r with _ | ⟨a, r1⟩
  · simp [startsHost] at hsh
  rcases r1 with _ | ⟨b, r2⟩
  · simp [startsHost] at hsh
  rcases r2 with _ | ⟨d, t⟩
  · simp [startsHost] at hsh
  simp only [startsHost, Bool.and_eq_true] at hsh
  obtain ⟨⟨ha, hb⟩, hd⟩ := hsh
  have horig : originOf u =
      String.mk s ++ "://" ++ String.mk ((d :: t).takeWhile fun c => !(c == '/')) := by
    simp only [originOf]
    rw [hcs, takeWhile_scheme _ s hsc, List.drop_left]
    simp [ha, hb]
  rw [horig]
  have htw : (d :: t).takeWhile (fun c => !(c == '/')) =
      d :: t.takeWhile (fun c => !(c == '/')) := by
    simp only [List.takeWhile_cons, hd]
    simp
  rw [htw]
  unfold isAbsoluteUrl
  rw [data_append, data_append]
  have hmk : (String.mk s).data = s := rfl
  have hsep : ("://" : String).data = [':', '/', '/'] := rfl
  have hmk2 : (String.mk (d :: t.takeWhile (fun c => !(c == '/')))).data =
      d :: t.takeWhile (fun c => !(c == '/')) := rfl
  rw [hmk, hsep, hmk2]
  have : s ++ [':', '/', '/'] ++ d :: t.takeWhile (fun c => !(c == '/')) =
      s ++ ':' :: '/' :: '/' :: d :: t.takeWhile (fun c => !(c == '/')) := by
    simp
  rw [this]
  have hd2 : (d == '/') = false := by
    cases hbe : d == '/'
    · rfl
    · rw [beq_iff_eq.mp hbe] at hd; simp at hd
  exact isAbsChars_build d _ hd2 s hsc false (Or.inr hne)

theorem pageWF_anchor (p : Page) (hp : pageWF p = true) :
    ∀ a ∈ anchorsOf p, wellFormedHref a.href = true := by
  unfold pageWF at hp
  simp only [Bool.and_eq_true, List.all_eq_true] at hp
  exact hp.1.1

theorem pageWF_divF (p : Page) (hp : pageWF p = true) :
    ∀ a ∈ p.divF, wellFormedHref a.href = true := by
  intro a ha
  exact pageWF_anchor p hp a (by unfold anchorsOf; simp [ha])

theorem pageWF_all (p : Page) (hp : pageWF p = true) :
    ∀ a ∈ p.allAnchors, wellFormedHref a.href = true := by
  intro a ha
  exact pageWF_anchor p hp a (by unfold anchorsOf; simp [ha])

theorem pageWF_coral (p : Page) (hp : pageWF p = true) :
    ∀ a ∈ p.liCoral, wellFormedHref a.href = true := by
  intro a ha
  exact pageWF_anchor p hp a (by unfold anchorsOf; simp [ha])

theorem pageWF_flatten (p : Page) (hp : pageWF p = true) :
    ∀ a ∈ p.dlinkDivs.flatten, wellFormedHref a.href = true := by
  intro a ha
  exact pageWF_anchor p hp a (by unfold anchorsOf; simp [ha])

theorem pageWF_dlinkHead (p : Page) (hp : pageWF p = true) :
    ∀ a ∈ p.dlinkDivs.filterMap List.head?, wellFormedHref a.href = true := by
  intro a ha
  obtain ⟨g, hg, hga⟩ := List.mem_filterMap.mp ha
  exact pageWF_flatten p hp a (List.mem_flatten.mpr ⟨g, hg, List.mem_of_mem_head? hga⟩)

theorem pageWF_li (p : Page) (hp : pageWF p = true) :
    ∀ li ∈ p.listItems, ∀ a, li.anchor = some a → wellFormedHref a.href = true := by
  intro li hli a haeq
  refine pageWF_anchor p hp a ?_
  unfold anchorsOf
  have : a ∈ p.listItems.filterMap (fun li => li.anchor) :=
    List.mem_filterMap.mpr ⟨li, hli, haeq⟩
  simp [this]

theorem pageWF_img (p : Page) (hp : pageWF p = true) :
    ∀ i ∈ p.imgs, wellFormedHref i.src = true := by
  unfold pageWF at hp
  simp only [Bool.and_eq_true, List.all_eq_true] at hp
  exact hp.1.2

theorem pageWF_pic (p : Page) (hp : pageWF p = true) :
    ∀ pc ∈ p.pictures,
      (∀ s, pc.sourceSrcset = some s → wellFormedHref (firstToken s) = true) ∧
      (∀ s, pc.imgSrc = some s → wellFormedHref s = true) := by
  unfold pageWF at hp
  simp only [Bool.and_eq_true, List.all_eq_true] at hp
  intro pc hpc
  have h := hp.2 pc hpc
  simp only [Bool.and_eq_true] at h
  constructor
  · intro s hs; have h1 := h.1; rw [hs] at h1; exact h1
  · intro s hs; have h2 := h.2; rw [hs] at h2; exact h2

theorem get_server_links_eq_none (fetch : Fetch) (iurl : String)
    (h : fetch iurl = none) : get_server_links fetch iurl = [] := by
  unfold get_server_links; rw [h]

theorem get_server_links_eq_some (fetch : Fetch) (iurl : String) (page : Page)
    (h : fetch iurl = some page) :
    get_server_links fetch iurl =
      if (serverLoop fetch (page.dlinkDivs.filterMap List.head?)).isEmpty then
        serverFallbackLoop fetch page.allAnchors
      else serverLoop fetch (page.dlinkDivs.filterMap List.head?) := by
  unfold get_server_links; rw [h]

theorem get_download_links_eq_none (fetch : Fetch) (qurl : String)
    (h : fetch qurl = none) : get_download_links fetch qurl = [] := by
  unfold get_download_links; rw [h]

theorem get_download_links_eq_some (fetch : Fetch) (qurl : String) (page : Page)
    (h : fetch qurl = some page) :
    get_download_links fetch qurl =
      (sizePass page.listItems
        (if (coralScan (originOf qurl) page.liCoral).isEmpty then
          mp4TextScan (originOf qurl) page.allAnchors
        else coralScan (originOf qurl) page.liCoral)).map
        (fun d => { d with direct_links := get_server_links fetch d.intermediate_url }) := by
  unfold get_download_links; rw [h]

theorem get_quality_from_original_page_eq_none (fetch : Fetch) (ourl base : String)
    (h : fetch ourl = none) : get_quality_from_original_page fetch ourl base = [] := by
  unfold get_quality_from_original_page; rw [h]

theorem get_quality_from_original_page_eq_some (fetch : Fetch) (ourl base : String)
    (page : Page) (h : fetch ourl = some page) :
    get_quality_from_original_page fetch ourl base = origScan base page.divF := by
  unfold get_quality_from_original_page; rw [h]

theorem get_episodes_eq_none (fetch : Fetch) (surl base : String)
    (h : fetch surl = none) : get_episodes_from_season_page fetch surl base = [] := by
  unfold get_episodes_from_season_page; rw [h]

theorem get_episodes_eq_some (fetch : Fetch) (surl base : String) (page : Page)
    (h : fetch surl = some page) :
    get_episodes_from_season_page fetch surl base =
      (seasonScan base page.listItems []).reverse := by
  unfold get_episodes_from_season_page; rw [h]

theorem get_quality_options_eq_none (fetch : Fetch) (u : String)
    (h : fetch u = none) : get_quality_options fetch u = ([], ⟨none, []⟩) := by
  unfold get_quality_options; rw [h]

theorem get_quality_options_eq_some (fetch : Fetch) (u : String) (page : Page)
    (h : fetch u = some page) :
    get_quality_options fetch u =
      (if (qoLoop fetch (originOf u) page.divF []).1 then
        ((qoLoop fetch (originOf u) page.divF []).2, get_movie_images page u)
      else if (qoLoop fetch (originOf u) page.divF []).2.isEmpty
          && pyIn "season" (strLower u) && pyIn "moviesda" (originOf u) then
        (if (scan_moviesda_episodes fetch u (originOf u)).isEmpty then
          (qoLoop fetch (originOf u) page.divF []).2
        else scan_moviesda_episodes fetch u (originOf u),
         get_movie_images page u)
      else ((qoLoop fetch (originOf u) page.divF []).2, get_movie_images page u)) := by
  unfold get_quality_options; rw [h]

theorem qualityInfoFor_eq_direct_none (fetch : Fetch) (q : Quality)
    (hq : q.is_direct_download = true) (h : fetch q.url = none) :
    qualityInfoFor fetch q = ⟨q.quality, []⟩ := by
  unfold qualityInfoFor; rw [if_pos hq, h]

theorem qualityInfoFor_eq_direct_some (fetch : Fetch) (q : Quality) (page : Page)
    (hq : q.is_direct_download = true) (h : fetch q.url = some page) :
    qualityInfoFor fetch q =
      if !page.dlinkDivs.flatten.isEmpty then
        ⟨q.quality, [⟨q.quality, q.url, get_server_links fetch q.url, some ""⟩]⟩
      else ⟨q.quality, listDownloadScan fetch (originOf q.url) page.listItems []⟩ := by
  unfold qualityInfoFor; rw [if_pos hq, h]

theorem qualityInfoFor_eq_indirect (fetch : Fetch) (q : Quality)
    (hq : q.is_direct_download = false) :
    qualityInfoFor fetch q = ⟨q.quality, get_download_links fetch q.url⟩ := by
  unfold qualityInfoFor; rw [hq]; simp

theorem imgScan_abs (base : String) (hb : isAbsoluteUrl base = true) :
    ∀ (imgs : List Img) (acc : Images),
      (∀ i ∈ imgs, wellFormedHref i.src = true) → ImagesAbs acc →
      ImagesAbs (imgScan base imgs acc) := by
  intro imgs
  induction imgs with
  | nil => intro acc _ hacc; simpa [imgScan] using hacc
  | cons i rest ih =>
    intro acc hwf hacc
    have hiwf : wellFormedHref i.src = true := hwf i (by simp)
    have hrest : ∀ x ∈ rest, wellFormedHref x.src = true :=
      fun x hx => hwf x (by simp [hx])
    have habs : isAbsoluteUrl (mkFull base i.src) = true := mkFull_abs _ _ hb hiwf
    simp only [imgScan]
    by_cases h0 : i.src = ""
    · rw [if_pos h0]; exact ih acc hrest hacc
    · rw [if_neg h0]
      by_cases h1 : (pyIn "/uploads/posters/" (mkFull base i.src)
          || pyIn "poster" (strLower i.alt)) = true
      · rw [if_pos h1]
        refine ih _ hrest ⟨?_, hacc.2⟩
        intro p hp
        simp only [Option.some.injEq] at hp
        rw [← hp]; exact habs
      · rw [if_neg h1]
        by_cases h2 : (pyIn "/uploads/screen_shots/" (mkFull base i.src)
            || pyIn "screenshot" (strLower i.alt)) = true
        · rw [if_pos h2]
          refine ih _ hrest ⟨hacc.1, ?_⟩
          intro s hs
          rcases List.mem_append.mp hs with hs | hs
          · exact hacc.2 s hs
          · simp only [List.mem_singleton] at hs; rw [hs]; exact habs
        · rw [if_neg h2]; exact ih acc hrest hacc

theorem picSourceStep_abs (base : String) (hb : isAbsoluteUrl base = true)
    (acc : Images) (hacc : ImagesAbs acc) (o : Option String)
    (hwf : ∀ s, o = some s → wellFormedHref (firstToken s) = true) :
    ImagesAbs (picSourceStep base acc o) := by
  cases o with
  | none => simpa [picSourceStep] using hacc
  | some srcset =>
    simp only [picSourceStep]
    by_cases hcond : (!(srcset = "") && pyIn "/uploads/posters/" srcset) = true
    · rw [if_pos hcond]
      refine ⟨?_, hacc.2⟩
      intro p hp
      simp only [Option.some.injEq] at hp
      rw [← hp]
      exact mkFull_abs _ _ hb (hwf srcset rfl)
    · rw [if_neg hcond]; exact hacc

theorem picImgStep_abs (base : String) (hb : isAbsoluteUrl base = true)
    (acc : Images) (hacc : ImagesAbs acc) (o : Option String)
    (hwf : ∀ s, o = some s → wellFormedHref s = true) :
    ImagesAbs (picImgStep base acc o) := by
  cases o with
  | none => simpa [picImgStep] using hacc
  | some srcv =>
    simp only [picImgStep]
    by_cases hn : acc.poster_url.isNone = true
    · rw [if_pos hn]
      by_cases hcond : (!(srcv = "") && pyIn "/uploads/posters/" srcv) = true
      · rw [if_pos hcond]
        refine ⟨?_, hacc.2⟩
        intro p hp
        simp only [Option.some.injEq] at hp
        rw [← hp]
        exact mkFull_abs _ _ hb (hwf srcv rfl)
      · rw [if_neg hcond]; exact hacc
    · rw [if_neg hn]; exact hacc

theorem picScan_abs (base : String) (hb : isAbsoluteUrl base = true) :
    ∀ (pics : List Pic) (acc : Images),
      (∀ pc ∈ pics,
        (∀ s, pc.sourceSrcset = some s → wellFormedHref (firstToken s) = true) ∧
        (∀ s, pc.imgSrc = some s → wellFormedHref s = true)) →
      ImagesAbs acc → ImagesAbs (picScan base pics acc) := by
  intro pics
  induction pics with
  | nil => intro acc _ hacc; simpa [picScan] using hacc
  | cons pc rest ih =>
    intro acc hwf hacc
    have hrest : ∀ x ∈ rest,
        (∀ s, x.sourceSrcset = some s → wellFormedHref (firstToken s) = true) ∧
        (∀ s, x.imgSrc = some s → wellFormedHref s = true) :=
      fun x hx => hwf x (by simp [hx])
    have hpc := hwf pc (by simp)
    simp only [picScan]
    exact ih _ hrest
      (picImgStep_abs base hb _
        (picSourceStep_abs base hb acc hacc pc.sourceSrcset hpc.1)
        pc.imgSrc hpc.2)

theorem get_movie_images_abs (page : Page) (u : String) (hp : pageWF page = true)
    (hu : isAbsoluteUrl u = true) : ImagesAbs (get_movie_images page u) := by
  have hb := originOf_abs u hu
  unfold get_movie_images
  exact picScan_abs _ hb _ _ (pageWF_pic page hp)
    (imgScan_abs _ hb _ _ (pageWF_img page hp) ⟨by simp, by simp⟩)

theorem serverLoop_abs (fetch : Fetch) :
    ∀ (anchors : List Anchor), (∀ a ∈ anchors, wellFormedHref a.href = true) →
      ∀ sv ∈ serverLoop fetch anchors,
        pyStartsWith sv.level1_url "http" = true
          ∧ isAbsoluteUrl sv.level1_url = true := by
  intro anchors
  induction anchors with
  | nil => intro _ sv hsv; simp [serverLoop] at hsv
  | cons a rest ih =>
    intro hwf sv hsv
    have hrest : ∀ x ∈ rest, wellFormedHref x.href = true :=
      fun x hx => hwf x (by simp [hx])
    simp only [serverLoop] at hsv
    by_cases hh : pyStartsWith a.href "http" = true
    · rw [if_pos hh] at hsv
      have habs := wf_http_abs a.href (hwf a (by simp)) hh
      cases hg : get_final_mp4_url fetch a.href with
      | some f =>
        rw [hg] at hsv
        simp only [List.mem_singleton] at hsv
        rw [hsv]
        exact ⟨hh, habs⟩
      | none =>
        rw [hg] at hsv
        rcases List.mem_cons.mp hsv with h1 | h1
        · rw [h1]; exact ⟨hh, habs⟩
        · exact ih hrest sv h1
    · rw [if_neg hh] at hsv
      exact ih hrest sv hsv

theorem serverFallbackLoop_abs (fetch : Fetch) :
    ∀ (anchors : List Anchor), (∀ a ∈ anchors, wellFormedHref a.href = true) →
      ∀ sv ∈ serverFallbackLoop fetch anchors,
        pyStartsWith sv.level1_url "http" = true
          ∧ isAbsoluteUrl sv.level1_url = true := by
  intro anchors
  induction anchors with
  | nil => intro _ sv hsv; simp [serverFallbackLoop] at hsv
  | cons a rest ih =>
    intro hwf sv hsv
    have hrest : ∀ x ∈ rest, wellFormedHref x.href = true :=
      fun x hx => hwf x (by simp [hx])
    simp only [serverFallbackLoop] at hsv
    by_cases hc : ((pyIn "download" (strLower a.text) || pyIn "server" (strLower a.text))
        && (pyStartsWith a.href "http" && !pyIn "moviesda15.com" a.href
              && !pyIn "isaidub.love" a.href)) = true
    · rw [if_pos hc] at hsv
      simp only [Bool.and_eq_true] at hc
      have hh : pyStartsWith a.href "http" = true := hc.2.1.1
      have habs := wf_http_abs a.href (hwf a (by simp)) hh
      cases hg : get_final_mp4_url fetch a.href with
      | some f =>
        rw [hg] at hsv
        simp only [List.mem_singleton] at hsv
        rw [hsv]
        exact ⟨hh, habs⟩
      | none =>
        rw [hg] at hsv
        rcases List.mem_cons.mp hsv with h1 | h1
        · rw [h1]; exact ⟨hh, habs⟩
        · exact ih hrest sv h1
    · rw [if_neg hc] at hsv
      exact ih hrest sv hsv

theorem get_server_links_abs (fetch : Fetch) (hf : envWF fetch) (iurl : String) :
    ∀ sv ∈ get_server_links fetch iurl,
      pyStartsWith sv.level1_url "http" = true
        ∧ isAbsoluteUrl sv.level1_url = true := by
  intro sv hsv
  cases hfetch : fetch iurl with
  | none => rw [get_server_links_eq_none fetch iurl hfetch] at hsv; simp at hsv
  | some page =>
    rw [get_server_links_eq_some fetch iurl page hfetch] at hsv
    have hp := hf iurl page hfetch
    by_cases he : (serverLoop fetch (page.dlinkDivs.filterMap List.head?)).isEmpty = true
    · rw [if_pos he] at hsv
      exact serverFallbackLoop_abs fetch _ (pageWF_all page hp) sv hsv
    · rw [if_neg he] at hsv
      exact serverLoop_abs fetch _ (pageWF_dlinkHead page hp) sv hsv

theorem setLastSizeD_mem (sz : String) :
    ∀ (l : List Download), ∀ d ∈ setLastSizeD l sz,
      ∃ d0 ∈ l, d.intermediate_url = d0.intermediate_url
        ∧ d.direct_links = d0.direct_links := by
  intro l
  induction l with
  | nil => intro d hd; simp [setLastSizeD] at hd
  | cons x rest ih =>
    intro d hd
    cases rest with
    | nil =>
      simp only [setLastSizeD, List.mem_singleton] at hd
      exact ⟨x, by simp, by rw [hd], by rw [hd]⟩
    | cons y ys =>
      simp only [setLastSizeD] at hd
      rcases List.mem_cons.mp hd with h1 | h1
      · exact ⟨x, by simp, by rw [h1], by rw [h1]⟩
      · obtain ⟨d0, hd0, he⟩ := ih d h1
        exact ⟨d0, by simp [List.mem_cons.mp hd0], he⟩

theorem sizeStep_mem (dls : List Download) (o : Option String) :
    ∀ d ∈ sizeStep dls o,
      ∃ d0 ∈ dls, d.intermediate_url = d0.intermediate_url
        ∧ d.direct_links = d0.direct_links := by
  intro d hd
  cases o with
  | none => exact ⟨d, by simpa [sizeStep] using hd, rfl, rfl⟩
  | some sz =>
    simp only [sizeStep] at hd
    by_cases he : dls.isEmpty = true
    · rw [if_pos he] at hd; exact ⟨d, hd, rfl, rfl⟩
    · rw [if_neg he] at hd; exact setLastSizeD_mem sz dls d hd

theorem sizePass_mem :
    ∀ (lis : List LI) (dls : List Download), ∀ d ∈ sizePass lis dls,
      ∃ d0 ∈ dls, d.intermediate_url = d0.intermediate_url
        ∧ d.direct_links = d0.direct_links := by
  intro lis
  induction lis with
  | nil => intro dls d hd; exact ⟨d, by simpa [sizePass] using hd, rfl, rfl⟩
  | cons li rest ih =>
    intro dls d hd
    simp only [sizePass] at hd
    obtain ⟨d1, hd1, h1, h2⟩ := ih _ d hd
    obtain ⟨d0, hd0, h3, h4⟩ := sizeStep_mem dls (fileSizeSearch li.text) d1 hd1
    exact ⟨d0, hd0, h1.trans h3, h2.trans h4⟩

theorem coralScan_abs (base : String) (hb : isAbsoluteUrl base = true) :
    ∀ (anchors : List Anchor), (∀ a ∈ anchors, wellFormedHref a.href = true) →
      ∀ d ∈ coralScan base anchors, isAbsoluteUrl d.intermediate_url = true := by
  intro anchors
  induction anchors with
  | nil => intro _ d hd; simp [coralScan] at hd
  | cons a rest ih =>
    intro hwf d hd
    have hrest : ∀ x ∈ rest, wellFormedHref x.href = true :=
      fun x hx => hwf x (by simp [hx])
    simp only [coralScan] at hd
    by_cases hc : pyIn "/download/" a.href = true
    · rw [if_pos hc] at hd
      rcases List.mem_cons.mp hd with h1 | h1
      · rw [h1]; exact mkFull_abs _ _ hb (hwf a (by simp))
      · exact ih hrest d h1
    · rw [if_neg hc] at hd
      exact ih hrest d hd

theorem mp4TextScan_abs (base : String) (hb : isAbsoluteUrl base = true) :
    ∀ (anchors : List Anchor), (∀ a ∈ anchors, wellFormedHref a.href = true) →
      ∀ d ∈ mp4TextScan base anchors, isAbsoluteUrl d.intermediate_url = true := by
  intro anchors
  induction anchors with
  | nil => intro _ d hd; simp [mp4TextScan] at hd
  | cons a rest ih =>
    intro hwf d hd
    have hrest : ∀ x ∈ rest, wellFormedHref x.href = true :=
      fun x hx => hwf x (by simp [hx])
    simp only [mp4TextScan] at hd
    by_cases hc : (pyIn "/download/" a.href
        && (pyIn ".mp4" (strLower a.text) || pyIn "hd" (strLower a.text))) = true
    · rw [if_pos hc] at hd
      rcases List.mem_cons.mp hd with h1 | h1
      · rw [h1]; exact mkFull_abs _ _ hb (hwf a (by simp))
      · exact ih hrest d h1
    · rw [if_neg hc] at hd
      exact ih hrest d hd

theorem get_download_links_abs (fetch : Fetch) (hf : envWF fetch) (qurl : String)
    (hq : isAbsoluteUrl qurl = true) :
    ∀ d ∈ get_download_links fetch qurl,
      isAbsoluteUrl d.intermediate_url = true ∧
      ∀ sv ∈ d.direct_links,
        pyStartsWith sv.level1_url "http" = true
          ∧ isAbsoluteUrl sv.level1_url = true := by
  intro d hd
  cases hfetch : fetch qurl with
  | none => rw [get_download_links_eq_none fetch qurl hfetch] at hd; simp at hd
  | some page =>
    rw [get_download_links_eq_some fetch qurl page hfetch] at hd
    have hp := hf qurl page hfetch
    have hbase := originOf_abs qurl hq
    simp only [List.mem_map] at hd
    obtain ⟨d1, hd1, hmap⟩ := hd
    obtain ⟨d0, hd0, hieq, _⟩ := sizePass_mem _ _ d1 hd1
    have habs0 : isAbsoluteUrl d0.intermediate_url = true := by
      by_cases he : (coralScan (originOf qurl) page.liCoral).isEmpty = true
      · rw [if_pos he] at hd0
        exact mp4TextScan_abs _ hbase _ (pageWF_all page hp) d0 hd0
      · rw [if_neg he] at hd0
        exact coralScan_abs _ hbase _ (pageWF_coral page hp) d0 hd0
    constructor
    · rw [← hmap]
      show isAbsoluteUrl d1.intermediate_url = true
      rw [hieq]; exact habs0
    · intro sv hsv
      rw [← hmap] at hsv
      exact get_server_links_abs fetch hf d1.intermediate_url sv hsv

theorem setLastSize_mem (sz : String) :
    ∀ (l : List Quality), ∀ q ∈ setLastSize l sz,
      ∃ q0 ∈ l, q.url = q0.url ∧ q.quality = q0.quality
        ∧ q.is_direct_download = q0.is_direct_download := by
  intro l
  induction l with
  | nil => intro q hq; simp [setLastSize] at hq
  | cons x rest ih =>
    intro q hq
    cases rest with
    | nil =>
      simp only [setLastSize, List.mem_singleton] at hq
      exact ⟨x, by simp, by rw [hq], by rw [hq], by rw [hq]⟩
    | cons y ys =>
      simp only [setLastSize] at hq
      rcases List.mem_cons.mp hq with h1 | h1
      · exact ⟨x, by simp, by rw [h1], by rw [h1], by rw [h1]⟩
      · obtain ⟨q0, hq0, he⟩ := ih q h1
        exact ⟨q0, by simp [List.mem_cons.mp hq0], he⟩

theorem seasonSizeStep_mem (eps : List Quality) (o : Option String) :
    ∀ q ∈ seasonSizeStep eps o,
      ∃ q0 ∈ eps, q.url = q0.url ∧ q.quality = q0.quality
        ∧ q.is_direct_download = q0.is_direct_download := by
  intro q hq
  cases o with
  | none => exact ⟨q, by simpa [seasonSizeStep] using hq, rfl, rfl, rfl⟩
  | some sz =>
    simp only [seasonSizeStep] at hq
    by_cases he : eps.isEmpty = true
    · rw [if_pos he] at hq; exact ⟨q, hq, rfl, rfl, rfl⟩
    · rw [if_neg he] at hq; exact setLastSize_mem sz eps q hq

theorem seasonScan_abs (base : String) (hb : isAbsoluteUrl base = true) :
    ∀ (lis : List LI) (eps : List Quality),
      (∀ li ∈ lis, ∀ a, li.anchor = some a → wellFormedHref a.href = true) →
      (∀ q ∈ eps, isAbsoluteUrl q.url = true) →
      ∀ q ∈ seasonScan base lis eps, isAbsoluteUrl q.url = true := by
  intro lis
  induction lis with
  | nil => intro eps _ heps q hq; exact heps q (by simpa [seasonScan] using hq)
  | cons li rest ih =>
    intro eps hwf heps q hq
    have hrest : ∀ x ∈ rest, ∀ a, x.anchor = some a → wellFormedHref a.href = true :=
      fun x hx => hwf x (by simp [hx])
    simp only [seasonScan] at hq
    refine ih _ hrest ?_ q hq
    intro q1 hq1
    obtain ⟨q0, hq0, hu, _, _⟩ :=
      seasonSizeStep_mem (seasonAnchorStep base eps li.anchor)
        (fileSizeSearch li.text) q1 hq1
    rw [hu]
    cases ha : li.anchor with
    | none => rw [ha] at hq0; exact heps q0 (by simpa [seasonAnchorStep] using hq0)
    | some a =>
      rw [ha] at hq0
      simp only [seasonAnchorStep] at hq0
      by_cases hc : pyIn "/download/" a.href = true
      · rw [if_pos hc] at hq0
        rcases List.mem_append.mp hq0 with h1 | h1
        · exact heps q0 h1
        · simp only [List.mem_singleton] at h1
          rw [h1]
          exact mkFull_abs _ _ hb (hwf li (by simp) a ha)
      · rw [if_neg hc] at hq0
        exact heps q0 hq0

theorem get_episodes_abs (fetch : Fetch) (hf : envWF fetch) (surl base : String)
    (hb : isAbsoluteUrl base = true) :
    ∀ q ∈ get_episodes_from_season_page fetch surl base,
      isAbsoluteUrl q.url = true := by
  intro q hq
  cases hfetch : fetch surl with
  | none => rw [get_episodes_eq_none fetch surl base hfetch] at hq; simp at hq
  | some page =>
    rw [get_episodes_eq_some fetch surl base page hfetch] at hq
    rw [List.mem_reverse] at hq
    exact seasonScan_abs base hb _ []
      (pageWF_li page (hf surl page hfetch)) (by simp) q hq

theorem origScan_abs (base : String) (hb : isAbsoluteUrl base = true) :
    ∀ (anchors : List Anchor), (∀ a ∈ anchors, wellFormedHref a.href = true) →
      ∀ q ∈ origScan base anchors, isAbsoluteUrl q.url = true := by
  intro anchors
  induction anchors with
  | nil => intro _ q hq; simp [origScan] at hq
  | cons a rest ih =>
    intro hwf q hq
    have hrest : ∀ x ∈ rest, wellFormedHref x.href = true :=
      fun x hx => hwf x (by simp [hx])
    have habs : isAbsoluteUrl (mkFull base a.href) = true :=
      mkFull_abs _ _ hb (hwf a (by simp))
    simp only [origScan] at hq
    by_cases h1 : isQualityHref a = true
    · rw [if_pos h1] at hq
      rcases List.mem_cons.mp hq with h2 | h2
      · rw [h2]; exact habs
      · exact ih hrest q h2
    · rw [if_neg h1] at hq
      by_cases h3 : isNumericRes a = true
      · rw [if_pos h3] at hq
        rcases List.mem_cons.mp hq with h2 | h2
        · rw [h2]; exact habs
        · exact ih hrest q h2
      · rw [if_neg h3] at hq
        exact ih hrest q hq

theorem get_quality_from_original_page_abs (fetch : Fetch) (hf : envWF fetch)
    (ourl base : String) (hb : isAbsoluteUrl base = true) :
    ∀ q ∈ get_quality_from_original_page fetch ourl base,
      isAbsoluteUrl q.url = true := by
  intro q hq
  cases hfetch : fetch ourl with
  | none =>
    rw [get_quality_from_original_page_eq_none fetch ourl base hfetch] at hq
    simp at hq
  | some page =>
    rw [get_quality_from_original_page_eq_some fetch ourl base page hfetch] at hq
    exact origScan_abs base hb _ (pageWF_divF page (hf ourl page hfetch)) q hq

theorem epUrl_abs (base slug sn : String) (i : Nat)
    (hb : isAbsoluteUrl base = true) : isAbsoluteUrl (epUrl base slug sn i) = true := by
  unfold epUrl
  repeat apply isAbsoluteUrl_append
  exact hb

theorem scanLoop_eq_none (fetch : Fetch) (base slug sn : String) (n epi : Nat)
    (h : fetch (epUrl base slug sn epi) = none) :
    scanLoop fetch base slug sn (n + 1) epi = [] := by
  conv_lhs => unfold scanLoop
  rw [h]

theorem scanLoop_eq_some (fetch : Fetch) (base slug sn : String) (n epi : Nat)
    (page : Page) (h : fetch (epUrl base slug sn epi) = some page) :
    scanLoop fetch base slug sn (n + 1) epi =
      if page.dlinkDivs.flatten.isEmpty then []
      else ⟨episodeTitle page epi, epUrl base slug sn epi, true, none⟩ ::
        scanLoop fetch base slug sn n (epi + 1) := by
  conv_lhs => unfold scanLoop
  rw [h]

theorem scanLoop_abs (fetch : Fetch) (base slug sn : String)
    (hb : isAbsoluteUrl base = true) :
    ∀ (fuel epi : Nat), ∀ q ∈ scanLoop fetch base slug sn fuel epi,
      isAbsoluteUrl q.url = true := by
  intro fuel
  induction fuel with
  | zero => intro epi q hq; simp [scanLoop] at hq
  | succ n ih =>
    intro epi q hq
    cases hfetch : fetch (epUrl base slug sn epi) with
    | none => rw [scanLoop_eq_none fetch base slug sn n epi hfetch] at hq; simp at hq
    | some page =>
      rw [scanLoop_eq_some fetch base slug sn n epi page hfetch] at hq
      by_cases he : page.dlinkDivs.flatten.isEmpty = true
      · rw [if_pos he] at hq; simp at hq
      · rw [if_neg he] at hq
        rcases List.mem_cons.mp hq with h1 | h1
        · rw [h1]; exact epUrl_abs base slug sn epi hb
        · exact ih (epi + 1) q h1

theorem scan_moviesda_episodes_abs (fetch : Fetch) (u base : String)
    (hb : isAbsoluteUrl base = true) :
    ∀ q ∈ scan_moviesda_episodes fetch u base, isAbsoluteUrl q.url = true := by
  intro q hq
  unfold scan_moviesda_episodes at hq
  cases hp : parseSeriesUrl u with
  | none => rw [hp] at hq; simp at hq
  | some r =>
    rw [hp] at hq
    exact scanLoop_abs fetch base r.1 r.2 hb 20 1 q hq

theorem qoLoop_abs (fetch : Fetch) (hf : envWF fetch) (base : String)
    (hb : isAbsoluteUrl base = true) :
    ∀ (anchors : List Anchor) (qs : List Quality),
      (∀ a ∈ anchors, wellFormedHref a.href = true) →
      (∀ q ∈ qs, isAbsoluteUrl q.url = true) →
      ∀ q ∈ (qoLoop fetch base anchors qs).2, isAbsoluteUrl q.url = true := by
  intro anchors
  induction anchors with
  | nil => intro qs _ hqs q hq; exact hqs q (by simpa [qoLoop] using hq)
  | cons a rest ih =>
    intro qs hwf hqs q hq
    have hrest : ∀ x ∈ rest, wellFormedHref x.href = true :=
      fun x hx => hwf x (by simp [hx])
    have hawf : wellFormedHref a.href = true := hwf a (by simp)
    simp only [qoLoop] at hq
    by_cases h1 : isOriginalHref a = true
    · rw [if_pos h1] at hq
      exact get_quality_from_original_page_abs fetch hf _ base hb q hq
    · rw [if_neg h1] at hq
      by_cases h2 : isNumericOriginal a = true
      · rw [if_pos h2] at hq
        exact get_quality_from_original_page_abs fetch hf _ base hb q hq
      · rw [if_neg h2] at hq
        have haccum : ∀ q1 ∈ (if isQualityHref a = true then
              qs ++ [⟨a.text, mkFull base a.href, false, none⟩]
            else if isNumericDim a = true then
              qs ++ [⟨a.text, mkFull base a.href, true, none⟩]
            else qs), isAbsoluteUrl q1.url = true := by
          intro q1 hq1
          by_cases h5 : isQualityHref a = true
          · rw [if_pos h5] at hq1
            rcases List.mem_append.mp hq1 with h6 | h6
            · exact hqs q1 h6
            · simp only [List.mem_singleton] at h6
              rw [h6]
              exact mkFull_abs _ _ hb hawf
          · rw [if_neg h5] at hq1
            by_cases h7 : isNumericDim a = true
            · rw [if_pos h7] at hq1
              rcases List.mem_append.mp hq1 with h6 | h6
              · exact hqs q1 h6
              · simp only [List.mem_singleton] at h6
                rw [h6]
                exact mkFull_abs _ _ hb hawf
            · rw [if_neg h7] at hq1
              exact hqs q1 hq1
        by_cases h4 : isSeasonHref a = true
        · rw [if_pos h4] at hq
          by_cases h3 : (!(get_episodes_from_season_page fetch
              (mkFull base a.href) base).isEmpty) = true
          · rw [if_pos h3] at hq
            exact get_episodes_abs fetch hf _ base hb q hq
          · rw [if_neg h3] at hq
            exact ih _ hrest haccum q hq
        · rw [if_neg h4] at hq
          replace hq : q ∈ (qoLoop fetch base rest
              (if isQualityHref a = true then
                qs ++ [⟨a.text, mkFull base a.href, false, none⟩]
              else if isNumericDim a = true then
                qs ++ [⟨a.text, mkFull base a.href, true, none⟩]
              else qs)).2 := hq
          exact ih _ hrest haccum q hq

theorem get_quality_options_abs (fetch : Fetch) (hf : envWF fetch) (u : String)
    (hu : isAbsoluteUrl u = true) :
    (∀ q ∈ (get_quality_options fetch u).1, isAbsoluteUrl q.url = true) ∧
      ImagesAbs (get_quality_options fetch u).2 := by
  have hb := originOf_abs u hu
  cases hfetch : fetch u with
  | none =>
    rw [get_quality_options_eq_none fetch u hfetch]
    exact ⟨by simp, by simp, by simp⟩
  | some page =>
    rw [get_quality_options_eq_some fetch u page hfetch]
    have hp := hf u page hfetch
    have himg := get_movie_images_abs page u hp hu
    have hqs : ∀ q ∈ (qoLoop fetch (originOf u) page.divF []).2,
        isAbsoluteUrl q.url = true :=
      qoLoop_abs fetch hf (originOf u) hb page.divF [] (pageWF_divF page hp) (by simp)
    by_cases h1 : (qoLoop fetch (originOf u) page.divF []).1 = true
    · rw [if_pos h1]; exact ⟨hqs, himg⟩
    · rw [if_neg h1]
      by_cases h2 : ((qoLoop fetch (originOf u) page.divF []).2.isEmpty
          && pyIn "season" (strLower u) && pyIn "moviesda" (originOf u)) = true
      · rw [if_pos h2]
        by_cases h3 : (scan_moviesda_episodes fetch u (originOf u)).isEmpty = true
        · rw [if_pos h3]; exact ⟨hqs, himg⟩
        · rw [if_neg h3]
          exact ⟨fun q hq => scan_moviesda_episodes_abs fetch u (originOf u) hb q hq,
            himg⟩
      · rw [if_neg h2]; exact ⟨hqs, himg⟩

theorem listAnchorStep_abs (fetch : Fetch) (hf : envWF fetch) (base : String)
    (hb : isAbsoluteUrl base = true) (dls : List Download)
    (hdls : ∀ d ∈ dls, DownloadAbs d) (o : Option Anchor)
    (hwf : ∀ a, o = some a → wellFormedHref a.href = true) :
    ∀ d ∈ listAnchorStep fetch base dls o, DownloadAbs d := by
  intro d hd
  cases o with
  | none => exact hdls d (by simpa [listAnchorStep] using hd)
  | some a =>
    simp only [listAnchorStep] at hd
    by_cases hc : pyIn "/download/" a.href = true
    · rw [if_pos hc] at hd
      rcases List.mem_append.mp hd with h1 | h1
      · exact hdls d h1
      · simp only [List.mem_singleton] at h1
        rw [h1]
        exact ⟨mkFull_abs _ _ hb (hwf a rfl),
          fun sv hsv => get_server_links_abs fetch hf _ sv hsv⟩
    · rw [if_neg hc] at hd
      exact hdls d hd

theorem sizeStep_absD (dls : List Download) (hdls : ∀ d ∈ dls, DownloadAbs d)
    (o : Option String) : ∀ d ∈ sizeStep dls o, DownloadAbs d := by
  intro d hd
  obtain ⟨d0, hd0, h1, h2⟩ := sizeStep_mem dls o d hd
  have := hdls d0 hd0
  exact ⟨by rw [h1]; exact this.1, by rw [h2]; exact this.2⟩

theorem listDownloadScan_abs (fetch : Fetch) (hf : envWF fetch) (base : String)
    (hb : isAbsoluteUrl base = true) :
    ∀ (lis : List LI) (dls : List Download),
      (∀ li ∈ lis, ∀ a, li.anchor = some a → wellFormedHref a.href = true) →
      (∀ d ∈ dls, DownloadAbs d) →
      ∀ d ∈ listDownloadScan fetch base lis dls, DownloadAbs d := by
  intro lis
  induction lis with
  | nil => intro dls _ hdls d hd; exact hdls d (by simpa [listDownloadScan] using hd)
  | cons li rest ih =>
    intro dls hwf hdls d hd
    have hrest : ∀ x ∈ rest, ∀ a, x.anchor = some a → wellFormedHref a.href = true :=
      fun x hx => hwf x (by simp [hx])
    simp only [listDownloadScan] at hd
    refine ih _ hrest ?_ d hd
    exact sizeStep_absD _ (listAnchorStep_abs fetch hf base hb dls hdls li.anchor
      (fun a ha => hwf li (by simp) a ha)) _

theorem qualityInfoFor_abs (fetch : Fetch) (hf : envWF fetch) (q : Quality)
    (hq : isAbsoluteUrl q.url = true) :
    ∀ d ∈ (qualityInfoFor fetch q).downloads, DownloadAbs d := by
  intro d hd
  by_cases hdir : q.is_direct_download = true
  · cases hfetch : fetch q.url with
    | none =>
      rw [qualityInfoFor_eq_direct_none fetch q hdir hfetch] at hd
      simp at hd
    | some page =>
      rw [qualityInfoFor_eq_direct_some fetch q page hdir hfetch] at hd
      by_cases he : (!page.dlinkDivs.flatten.isEmpty) = true
      · rw [if_pos he] at hd
        simp only [List.mem_singleton] at hd
        rw [hd]
        exact ⟨hq, fun sv hsv => get_server_links_abs fetch hf q.url sv hsv⟩
      · rw [if_neg he] at hd
        exact listDownloadScan_abs fetch hf _ (originOf_abs q.url hq) _ []
          (pageWF_li page (hf q.url page hfetch)) (by simp) d hd
  · have hdir2 : q.is_direct_download = false := by
      cases hv : q.is_direct_download
      · rfl
      · exact absurd hv hdir
    rw [qualityInfoFor_eq_indirect fetch q hdir2] at hd
    exact get_download_links_abs fetch hf q.url hq d hd

/-- **C1 (amended).**  Every URL the pipeline stores — quality-option
URLs, download intermediate URLs, server level-1 URLs, the poster and
the screenshots — is absolute (scheme and host present), provided the
fetch environment serves pages whose hrefs are well-formed
(http(s)-absolute or scheme-less relative references) and the movie URL
itself is absolute.  `ServerLink.mp4_url` is excluded: the redirect
chain walker returns a terminal href unchanged, so a relative terminal
href is stored verbatim (see the counterexample). -/
theorem c1_pipeline_urls_absolute (fetch : Fetch) (u : String)
    (hf : envWF fetch) (hu : isAbsoluteUrl u = true) :
    (∀ p, (scrape_movie fetch u).poster_url = some p → isAbsoluteUrl p = true) ∧
    (∀ s ∈ (scrape_movie fetch u).screenshots, isAbsoluteUrl s = true) ∧
    (∀ q ∈ (get_quality_options fetch u).1, isAbsoluteUrl q.url = true) ∧
    (∀ qi ∈ (scrape_movie fetch u).qualities, ∀ d ∈ qi.downloads, DownloadAbs d) := by
  obtain ⟨hqs, himg⟩ := get_quality_options_abs fetch hf u hu
  refine ⟨fun p hp => himg.1 p hp, fun s hs => himg.2 s hs, hqs, ?_⟩
  intro qi hqi d hd
  have hqi2 : qi ∈ ((get_quality_options fetch u).1).map (qualityInfoFor fetch) := hqi
  obtain ⟨q0, hq0, hqe⟩ := List.mem_map.mp hqi2
  rw [← hqe] at hd
  exact qualityInfoFor_abs fetch hf q0 (hqs q0 hq0) d hd

theorem cex1_envWF : envWF cex1Fetch := by
  intro u p h
  unfold cex1Fetch at h
  split at h
  · simp only [Option.some.injEq] at h; subst h; decide
  · split at h
    · simp only [Option.some.injEq] at h; subst h; decide
    · exact absurd h (by simp)

/-- **C1, counterexample.**  The claim as stated is false: under a
well-formed fetch environment and an absolute input URL, the pipeline
stores the relative URL `"ep1.mp4"` as a `ServerLink` media URL — the
redirect chain walker returns the terminal href unchanged without
resolving it against the hosting page's origin. -/
theorem c1_relative_media_url_cex :
    envWF cex1Fetch ∧ isAbsoluteUrl "http://site/dl/" = true ∧
    get_server_links cex1Fetch "http://site/dl/"
      = [⟨"Server 1", "http://srv/download/page", some "ep1.mp4"⟩] ∧
    isAbsoluteUrl "ep1.mp4" = false :=
  ⟨cex1_envWF, by decide, by decide, by decide⟩

theorem wit1_envWF : envWF wit1Fetch := by
  intro u p h
  unfold wit1Fetch at h
  split at h
  · simp only [Option.some.injEq] at h; subst h; decide
  · split at h
    · simp only [Option.some.injEq] at h; subst h; decide
    · split at h
      · simp only [Option.some.injEq] at h; subst h; decide
      · split at h
        · simp only [Option.some.injEq] at h; subst h; decide
        · exact absurd h (by simp)

theorem c1_pipeline_urls_absolute_witness :
    envWF wit1Fetch ∧
    isAbsoluteUrl "http://moviesda15.com/foo-2024-tamil-movie/" = true ∧
    ((∀ p, (scrape_movie wit1Fetch
        "http://moviesda15.com/foo-2024-tamil-movie/").poster_url = some p →
        isAbsoluteUrl p = true) ∧
     (∀ s ∈ (scrape_movie wit1Fetch
        "http://moviesda15.com/foo-2024-tamil-movie/").screenshots,
        isAbsoluteUrl s = true) ∧
     (∀ q ∈ (get_quality_options wit1Fetch
        "http://moviesda15.com/foo-2024-tamil-movie/").1,
        isAbsoluteUrl q.url = true) ∧
     (∀ qi ∈ (scrape_movie wit1Fetch
        "http://moviesda15.com/foo-2024-tamil-movie/").qualities,
        ∀ d ∈ qi.downloads, DownloadAbs d)) :=
  ⟨wit1_envWF, by decide,
    c1_pipeline_urls_absolute wit1Fetch
      "http://moviesda15.com/foo-2024-tamil-movie/" wit1_envWF (by decide)⟩

theorem finalLoopC_le (fetch : Fetch) :
    ∀ anchors : List Anchor, (finalLoopC fetch anchors).2 ≤ anchors.length := by
  intro anchors
  induction anchors with
  | nil => simp [finalLoopC]
  | cons a rest ih =>
    simp only [finalLoopC, List.length_cons]
    by_cases h1 : (isMp4 a.href || isCdn2 a.href) = true
    · rw [if_pos h1]; simp
    · rw [if_neg h1]
      by_cases h2 : (pyStartsWith a.href "http"
          && pyIn "download" (strLower a.href)) = true
      · rw [if_pos h2]
        cases hr : follow_final_redirect fetch a.href with
        | some f =>
          have hC : follow_final_redirectC fetch a.href = (some f, 1) := by
            unfold follow_final_redirectC; rw [hr]
          rw [hC]
          show (1 : Nat) ≤ rest.length + 1
          omega
        | none =>
          have hC : follow_final_redirectC fetch a.href = (none, 1) := by
            unfold follow_final_redirectC; rw [hr]
          rw [hC]
          show 1 + (finalLoopC fetch rest).2 ≤ rest.length + 1
          omega
      · rw [if_neg h2]
        show (finalLoopC fetch rest).2 ≤ rest.length + 1
        omega

theorem get_final_mp4_url_eq_none (fetch : Fetch) (url : String)
    (h : fetch url = none) : get_final_mp4_url fetch url = none := by
  unfold get_final_mp4_url; rw [h]

theorem get_final_mp4_url_eq_some (fetch : Fetch) (url : String) (page : Page)
    (h : fetch url = some page) :
    get_final_mp4_url fetch url =
      (match finalLoop fetch (page.dlinkDivs.filterMap List.head?) with
       | some f => some f
       | none =>
         page.allAnchors.findSome? fun a =>
           if isMp4 a.href || isCdn2 a.href then some a.href else none) := by
  unfold get_final_mp4_url; rw [h]

theorem get_final_mp4_urlC_eq_some (fetch : Fetch) (url : String) (page : Page)
    (h : fetch url = some page) :
    get_final_mp4_urlC fetch url =
      ((match (finalLoopC fetch (page.dlinkDivs.filterMap List.head?)).1 with
        | some f => some f
        | none =>
          page.allAnchors.findSome? fun a =>
            if isMp4 a.href || isCdn2 a.href then some a.href else none),
       1 + (finalLoopC fetch (page.dlinkDivs.filterMap List.head?)).2) := by
  unfold get_final_mp4_urlC; rw [h]

theorem get_final_mp4_urlC_count (fetch : Fetch) (url : String) (page : Page)
    (h : fetch url = some page) :
    (get_final_mp4_urlC fetch url).2 =
      1 + (finalLoopC fetch (page.dlinkDivs.filterMap List.head?)).2 := by
  rw [get_final_mp4_urlC_eq_some fetch url page h]

theorem finalLoopC_fst (fetch : Fetch) :
    ∀ anchors, (finalLoopC fetch anchors).1 = finalLoop fetch anchors := by
  intro anchors
  induction anchors with
  | nil => rfl
  | cons a rest ih =>
    simp only [finalLoopC, finalLoop]
    by_cases h1 : (isMp4 a.href || isCdn2 a.href) = true
    · rw [if_pos h1, if_pos h1]
    · rw [if_neg h1, if_neg h1]
      by_cases h2 : (pyStartsWith a.href "http"
          && pyIn "download" (strLower a.href)) = true
      · rw [if_pos h2, if_pos h2]
        cases hr : follow_final_redirect fetch a.href with
        | some f =>
          have hC : follow_final_redirectC fetch a.href = (some f, 1) := by
            unfold follow_final_redirectC; rw [hr]
          rw [hC]
        | none =>
          have hC : follow_final_redirectC fetch a.href = (none, 1) := by
            unfold follow_final_redirectC; rw [hr]
          rw [hC]
          exact ih
      · rw [if_neg h2, if_neg h2]; exact ih

theorem get_final_mp4_urlC_fst (fetch : Fetch) (url : String) :
    (get_final_mp4_urlC fetch url).1 = get_final_mp4_url fetch url := by
  cases hfetch : fetch url with
  | none =>
    have h1 : get_final_mp4_urlC fetch url = (none, 1) := by
      unfold get_final_mp4_urlC; rw [hfetch]
    rw [h1, get_final_mp4_url_eq_none fetch url hfetch]
  | some page =>
    rw [get_final_mp4_urlC_eq_some fetch url page hfetch,
      get_final_mp4_url_eq_some fetch url page hfetch,
      finalLoopC_fst fetch (page.dlinkDivs.filterMap List.head?)]

/-- **C2 (amended).**  A single call of the redirect chain walker
(`_get_final_mp4_url`) performs at most `1 + D` page fetches, where `D`
is the number of `div.dlink` lead anchors on the level-1 page (0 when
the level-1 fetch fails): recursion depth is capped at one extra hop,
but each non-terminal `download` anchor may trigger its own recursive
fetch, so the total is not capped at 3. -/
theorem c2_fetch_bound (fetch : Fetch) (url : String) :
    (get_final_mp4_urlC fetch url).2 ≤ 1 + level1AnchorCount fetch url := by
  cases hfetch : fetch url with
  | none =>
    have h1 : (get_final_mp4_urlC fetch url).2 = 1 := by
      unfold get_final_mp4_urlC; rw [hfetch]
    rw [h1]
    omega
  | some page =>
    rw [get_final_mp4_urlC_count fetch url page hfetch]
    unfold level1AnchorCount
    rw [hfetch]
    show 1 + (finalLoopC fetch (page.dlinkDivs.filterMap List.head?)).2 ≤
      1 + (page.dlinkDivs.filterMap List.head?).length
    have := finalLoopC_le fetch (page.dlinkDivs.filterMap List.head?)
    omega

/-- **C2, counterexample.**  A level-1 page with three non-terminal
`download` anchors, none of which resolves, produces four fetches in a
single `_get_final_mp4_url` call — the claimed bound of three fetches is
exceeded. -/
theorem c2_four_fetches_cex :
    (get_final_mp4_urlC cex2Fetch "http://l1/").2 = 4 ∧
    ¬((get_final_mp4_urlC cex2Fetch "http://l1/").2 ≤ 3) :=
  ⟨by decide, by decide⟩

theorem serverLoop_dropLast_none (fetch : Fetch) :
    ∀ anchors, ∀ sv ∈ (serverLoop fetch anchors).dropLast, sv.mp4_url = none := by
  intro anchors
  induction anchors with
  | nil => intro sv hsv; simp [serverLoop] at hsv
  | cons a rest ih =>
    intro sv hsv
    simp only [serverLoop] at hsv
    by_cases hh : pyStartsWith a.href "http" = true
    · rw [if_pos hh] at hsv
      cases hg : get_final_mp4_url fetch a.href with
      | some f => rw [hg] at hsv; simp at hsv
      | none =>
        rw [hg] at hsv
        cases hsl : serverLoop fetch rest with
        | nil => rw [hsl] at hsv; simp at hsv
        | cons s2 ss =>
          rw [hsl] at hsv
          have hdc : ((⟨a.text, a.href, none⟩ : Server) :: s2 :: ss).dropLast =
              (⟨a.text, a.href, none⟩ : Server) :: (s2 :: ss).dropLast := by
            simp [List.dropLast]
          rw [hdc] at hsv
          rcases List.mem_cons.mp hsv with h1 | h1
          · rw [h1]
          · rw [← hsl] at h1
            exact ih sv h1
    · rw [if_neg hh] at hsv
      exact ih sv hsv

theorem serverLoop_countP (fetch : Fetch) :
    ∀ anchors,
      (serverLoop fetch anchors).countP (fun sv => sv.mp4_url.isSome) ≤ 1 := by
  intro anchors
  induction anchors with
  | nil => simp [serverLoop]
  | cons a rest ih =>
    simp only [serverLoop]
    by_cases hh : pyStartsWith a.href "http" = true
    · rw [if_pos hh]
      cases hg : get_final_mp4_url fetch a.href with
      | some f => simp [List.countP_cons]
      | none => simp [List.countP_cons]; omega
    · rw [if_neg hh]; exact ih

theorem serverFallbackLoop_dropLast_none (fetch : Fetch) :
    ∀ anchors, ∀ sv ∈ (serverFallbackLoop fetch anchors).dropLast,
      sv.mp4_url = none := by
  intro anchors
  induction anchors with
  | nil => intro sv hsv; simp [serverFallbackLoop] at hsv
  | cons a rest ih =>
    intro sv hsv
    simp only [serverFallbackLoop] at hsv
    by_cases hc : ((pyIn "download" (strLower a.text) || pyIn "server" (strLower a.text))
        && (pyStartsWith a.href "http" && !pyIn "moviesda15.com" a.href
              && !pyIn "isaidub.love" a.href)) = true
    · rw [if_pos hc] at hsv
      cases hg : get_final_mp4_url fetch a.href with
      | some f => rw [hg] at hsv; simp at hsv
      | none =>
        rw [hg] at hsv
        cases hsl : serverFallbackLoop fetch rest with
        | nil => rw [hsl] at hsv; simp at hsv
        | cons s2 ss =>
          rw [hsl] at hsv
          have hdc : ((⟨a.text, a.href, none⟩ : Server) :: s2 :: ss).dropLast =
              (⟨a.text, a.href, none⟩ : Server) :: (s2 :: ss).dropLast := by
            simp [List.dropLast]
          rw [hdc] at hsv
          rcases List.mem_cons.mp hsv with h1 | h1
          · rw [h1]
          · rw [← hsl] at h1
            exact ih sv h1
    · rw [if_neg hc] at hsv
      exact ih sv hsv

theorem serverFallbackLoop_countP (fetch : Fetch) :
    ∀ anchors,
      (serverFallbackLoop fetch anchors).countP (fun sv => sv.mp4_url.isSome) ≤ 1 := by
  intro anchors
  induction anchors with
  | nil => simp [serverFallbackLoop]
  | cons a rest ih =>
    simp only [serverFallbackLoop]
    by_cases hc : ((pyIn "download" (strLower a.text) || pyIn "server" (strLower a.text))
        && (pyStartsWith a.href "http" && !pyIn "moviesda15.com" a.href
              && !pyIn "isaidub.love" a.href)) = true
    · rw [if_pos hc]
      cases hg : get_final_mp4_url fetch a.href with
      | some f => simp [List.countP_cons]
      | none => simp [List.countP_cons]; omega
    · rw [if_neg hc]; exact ih

/-- **C10.**  In every `_get_server_links` result, only the final
element of the sequence can carry a resolved media URL: scanning breaks
at the first server whose redirect chain resolves, so every server link
before the last has `mp4_url = none`, and at most one element of the
sequence has a non-null media URL. -/
theorem c10_media_url_last_only (fetch : Fetch) (iurl : String) :
    (∀ sv ∈ (get_server_links fetch iurl).dropLast, sv.mp4_url = none) ∧
    (get_server_links fetch iurl).countP (fun sv => sv.mp4_url.isSome) ≤ 1 := by
  cases hfetch : fetch iurl with
  | none =>
    rw [get_server_links_eq_none fetch iurl hfetch]
    exact ⟨by simp, by simp⟩
  | some page =>
    rw [get_server_links_eq_some fetch iurl page hfetch]
    by_cases he : (serverLoop fetch (page.dlinkDivs.filterMap List.head?)).isEmpty = true
    · rw [if_pos he]
      exact ⟨serverFallbackLoop_dropLast_none fetch _, serverFallbackLoop_countP fetch _⟩
    · rw [if_neg he]
      exact ⟨serverLoop_dropLast_none fetch _, serverLoop_countP fetch _⟩

theorem qoLoop_cons_skip (fetch : Fetch) (base : String) (a : Anchor)
    (rest : List Anchor) (qs : List Quality)
    (h1 : isOriginalHref a = false) (h2 : isNumericOriginal a = false)
    (h3 : isSeasonHref a = true →
      get_episodes_from_season_page fetch (mkFull base a.href) base = []) :
    qoLoop fetch base (a :: rest) qs =
      qoLoop fetch base rest
        (if isQualityHref a then qs ++ [⟨a.text, mkFull base a.href, false, none⟩]
         else if isNumericDim a then qs ++ [⟨a.text, mkFull base a.href, true, none⟩]
         else qs) := by
  simp only [qoLoop]
  rw [if_neg (by simp [h1]), if_neg (by simp [h2])]
  by_cases h4 : isSeasonHref a = true
  · rw [if_pos h4, h3 h4]
    rw [if_neg (by simp)]
  · rw [if_neg h4]
    rw [if_neg (by simp)]

theorem qoLoop_original_return (fetch : Fetch) (base : String) :
    ∀ (pre : List Anchor) (a : Anchor) (post : List Anchor) (qs : List Quality),
      (∀ b ∈ pre, isOriginalHref b = false ∧ isNumericOriginal b = false ∧
        (isSeasonHref b = true →
          get_episodes_from_season_page fetch (mkFull base b.href) base = [])) →
      (isOriginalHref a = true ∨ isNumericOriginal a = true) →
      qoLoop fetch base (pre ++ a :: post) qs =
        (true, get_quality_from_original_page fetch (mkFull base a.href) base) := by
  intro pre
  induction pre with
  | nil =>
    intro a post qs _ ha
    rcases ha with ha | ha
    · simp only [List.nil_append, qoLoop]
      rw [if_pos ha]
    · simp only [List.nil_append, qoLoop]
      by_cases h1 : isOriginalHref a = true
      · rw [if_pos h1]
      · rw [if_neg h1, if_pos ha]
  | cons b pre ih =>
    intro a post qs hpre ha
    have hb := hpre b (by simp)
    rw [List.cons_append,
      qoLoop_cons_skip fetch base b (pre ++ a :: post) qs hb.1 hb.2.1 hb.2.2]
    exact ih a post _ (fun x hx => hpre x (by simp [hx])) ha

/-- **C3 (amended).**  The resolver checks its strategies per anchor, in
document order.  If every anchor before `a` is neither an Original
indirection, nor a numeric-Original, nor a season anchor whose season
page yields episodes, and `a` classifies as an Original indirection (or
numeric-Original), then the resolver fetches `a`'s page, returns the
quality options extracted from it, and discards any direct qualities
accumulated from the earlier anchors.  (A season anchor earlier in
document order whose season page yields episodes would win instead: the
per-role priority of the claim holds only within a single anchor, not
across the page — see the counterexample.) -/
theorem c3_document_order_priority (fetch : Fetch) (u : String) (page : Page)
    (pre post : List Anchor) (a : Anchor)
    (hfetch : fetch u = some page)
    (hdiv : page.divF = pre ++ a :: post)
    (hpre : ∀ b ∈ pre, isOriginalHref b = false ∧ isNumericOriginal b = false ∧
      (isSeasonHref b = true →
        get_episodes_from_season_page fetch (mkFull (originOf u) b.href)
          (originOf u) = []))
    (ha : isOriginalHref a = true ∨ isNumericOriginal a = true) :
    (get_quality_options fetch u).1 =
      get_quality_from_original_page fetch (mkFull (originOf u) a.href)
        (originOf u) := by
  rw [get_quality_options_eq_some fetch u page hfetch, hdiv,
    qoLoop_original_return fetch (originOf u) pre a post [] hpre ha]
  rfl

/-- **C3, counterexample.**  On a page whose `div.f` anchors list a
season link before an Original link, the season page (which yields an
episode) wins: the resolver returns the season episodes and never
consults the Original page, so "Original takes precedence over season
indirection" is false — document order decides. -/
theorem c3_original_precedence_cex :
    cex3Fetch "http://isaidub.love/show-page/" = some cex3Page ∧
    (⟨"/show-original-movie/", "Original"⟩ : Anchor) ∈ cex3Page.divF ∧
    isOriginalHref ⟨"/show-original-movie/", "Original"⟩ = true ∧
    (get_quality_options cex3Fetch "http://isaidub.love/show-page/").1
      = [⟨"Ep 01", "http://isaidub.love/download/ep1/", true, none⟩] ∧
    get_quality_from_original_page cex3Fetch
      (mkFull (originOf "http://isaidub.love/show-page/") "/show-original-movie/")
      (originOf "http://isaidub.love/show-page/")
      = [⟨"1080p HD", "http://isaidub.love/show-1080p-file/", false, none⟩] ∧
    (get_quality_options cex3Fetch "http://isaidub.love/show-page/").1
      ≠ get_quality_from_original_page cex3Fetch
        (mkFull (originOf "http://isaidub.love/show-page/") "/show-original-movie/")
        (originOf "http://isaidub.love/show-page/") :=
  ⟨by decide, by decide, by decide, by decide, by decide, by decide⟩

theorem c3_document_order_priority_witness :
    (get_quality_options wit3Fetch "http://moviesda15.com/pic-page/").1 =
      get_quality_from_original_page wit3Fetch
        (mkFull (originOf "http://moviesda15.com/pic-page/") "/pic-original-movie/")
        (originOf "http://moviesda15.com/pic-page/") ∧
    (get_quality_options wit3Fetch "http://moviesda15.com/pic-page/").1
      = [⟨"720p", "http://moviesda15.com/pic-720p-hd/", false, none⟩] :=
  ⟨c3_document_order_priority wit3Fetch "http://moviesda15.com/pic-page/" wit3Page
    [⟨"/pic-gallery.html", "Photos"⟩] [] ⟨"/pic-original-movie/", "Original"⟩
    (by decide) (by decide) (by decide) (Or.inl (by decide)),
   by decide⟩

theorem epOk_eq_none (fetch : Fetch) (base slug sn : String) (i : Nat)
    (h : fetch (epUrl base slug sn i) = none) :
    epOk fetch base slug sn i = false := by
  unfold epOk; rw [h]

theorem epOk_eq_some (fetch : Fetch) (base slug sn : String) (i : Nat)
    (page : Page) (h : fetch (epUrl base slug sn i) = some page) :
    epOk fetch base slug sn i = !page.dlinkDivs.flatten.isEmpty := by
  unfold epOk; rw [h]

theorem scanLoop_spec (fetch : Fetch) (base slug sn : String) :
    ∀ (fuel start : Nat),
      (scanLoop fetch base slug sn fuel start).map (fun q => q.url) =
        ((List.range' start fuel).takeWhile (epOk fetch base slug sn)).map
          (epUrl base slug sn) := by
  intro fuel
  induction fuel with
  | zero => intro start; simp [scanLoop]
  | succ n ih =>
    intro start
    rw [List.range'_succ, List.takeWhile_cons]
    cases hfetch : fetch (epUrl base slug sn start) with
    | none =>
      rw [epOk_eq_none fetch base slug sn start hfetch,
        scanLoop_eq_none fetch base slug sn n start hfetch]
      simp
    | some page =>
      rw [epOk_eq_some fetch base slug sn start page hfetch,
        scanLoop_eq_some fetch base slug sn n start page hfetch]
      by_cases he : page.dlinkDivs.flatten.isEmpty = true
      · rw [if_pos he, he]
        simp
      · rw [if_neg he]
        have he2 : page.dlinkDivs.flatten.isEmpty = false :=
          Bool.not_eq_true _ ▸ (Bool.eq_false_iff.mpr he)
        rw [he2]
        simp only [Bool.not_false, if_true, List.map_cons]
        rw [ih (start + 1)]

theorem scanLoop_all_direct (fetch : Fetch) (base slug sn : String) :
    ∀ (fuel start : Nat),
      (scanLoop fetch base slug sn fuel start).all
        (fun q => q.is_direct_download) = true := by
  intro fuel
  induction fuel with
  | zero => intro start; simp [scanLoop]
  | succ n ih =>
    intro start
    cases hfetch : fetch (epUrl base slug sn start) with
    | none => rw [scanLoop_eq_none fetch base slug sn n start hfetch]; simp
    | some page =>
      rw [scanLoop_eq_some fetch base slug sn n start page hfetch]
      by_cases he : page.dlinkDivs.flatten.isEmpty = true
      · rw [if_pos he]; simp
      · rw [if_neg he]
        simp only [List.all_cons, Bool.and_eq_true]
        exact ⟨trivial, ih (start + 1)⟩

/-- **C4.**  Sequential episode probing: when the series URL parses to a
slug and season number, the returned sequence is exactly the probed
URLs `{base}/download/{slug}-season-{N}-epi-{NN}/` of the episodes
`1..k`, in ascending order, where `k ≤ 20` is the length of the initial
run of episodes whose fetch succeeds with a page carrying
`div.dlink a` anchors (probing stops at the first failure and never
goes beyond episode 20); every returned entry is flagged
`is_direct_download`. -/
theorem c4_episode_probe (fetch : Fetch) (u base slug sn : String)
    (h : parseSeriesUrl u = some (slug, sn)) :
    (scan_moviesda_episodes fetch u base).map (fun q => q.url) =
      ((List.range' 1 20).takeWhile (epOk fetch base slug sn)).map
        (epUrl base slug sn) ∧
    (scan_moviesda_episodes fetch u base).all
      (fun q => q.is_direct_download) = true ∧
    (scan_moviesda_episodes fetch u base).length ≤ 20 := by
  have hs : scan_moviesda_episodes fetch u base = scanLoop fetch base slug sn 20 1 := by
    unfold scan_moviesda_episodes; rw [h]
  rw [hs]
  refine ⟨scanLoop_spec fetch base slug sn 20 1,
    scanLoop_all_direct fetch base slug sn 20 1, ?_⟩
  have hlen := congrArg List.length (scanLoop_spec fetch base slug sn 20 1)
  simp only [List.length_map] at hlen
  rw [hlen]
  calc ((List.range' 1 20).takeWhile (epOk fetch base slug sn)).length
      ≤ (List.range' 1 20).length := (List.takeWhile_prefix _).length_le
    _ = 20 := by simp

theorem c4_episode_probe_witness :
    parseSeriesUrl "http://moviesda15.com/myshow-season-01-2024-tamil-movie/"
      = some ("myshow", "01") ∧
    (scan_moviesda_episodes c4Fetch
      "http://moviesda15.com/myshow-season-01-2024-tamil-movie/"
      "http://moviesda15.com").map (fun q => q.url) =
      ((List.range' 1 20).takeWhile
        (epOk c4Fetch "http://moviesda15.com" "myshow" "01")).map
        (epUrl "http://moviesda15.com" "myshow" "01") ∧
    (scan_moviesda_episodes c4Fetch
      "http://moviesda15.com/myshow-season-01-2024-tamil-movie/"
      "http://moviesda15.com").length = 7 ∧
    (scan_moviesda_episodes c4Fetch
      "http://moviesda15.com/myshow-season-01-2024-tamil-movie/"
      "http://moviesda15.com").map (fun q => q.url) = c4urls :=
  ⟨by decide,
   (c4_episode_probe c4Fetch
     "http://moviesda15.com/myshow-season-01-2024-tamil-movie/"
     "http://moviesda15.com" "myshow" "01" (by decide)).1,
   by decide, by decide⟩

theorem setLastSize_map_quality (sz : String) :
    ∀ l : List Quality,
      (setLastSize l sz).map (fun q => q.quality) = l.map (fun q => q.quality) := by
  intro l
  induction l with
  | nil => rfl
  | cons x rest ih =>
    cases rest with
    | nil => rfl
    | cons y ys =>
      simp only [setLastSize, List.map_cons]
      rw [show (setLastSize (y :: ys) sz).map (fun q => q.quality)
          = (y :: ys).map (fun q => q.quality) from ih]
      simp

theorem seasonSizeStep_map_quality (eps : List Quality) (o : Option String) :
    (seasonSizeStep eps o).map (fun q => q.quality) =
      eps.map (fun q => q.quality) := by
  cases o with
  | none => rfl
  | some sz =>
    simp only [seasonSizeStep]
    by_cases he : eps.isEmpty = true
    · rw [if_pos he]
    · rw [if_neg he]
      exact setLastSize_map_quality sz eps

theorem seasonScan_labels (base : String) :
    ∀ (lis : List LI) (eps : List Quality),
      (seasonScan base lis eps).map (fun q => q.quality) =
        eps.map (fun q => q.quality) ++ seasonLabels lis := by
  intro lis
  induction lis with
  | nil => intro eps; simp [seasonScan, seasonLabels]
  | cons li rest ih =>
    intro eps
    simp only [seasonScan]
    rw [ih, seasonSizeStep_map_quality]
    cases ha : li.anchor with
    | none =>
      simp only [seasonAnchorStep, seasonLabels, List.filterMap_cons, ha]
    | some a =>
      by_cases hc : pyIn "/download/" a.href = true
      · simp [seasonAnchorStep, seasonLabels, List.filterMap_cons, ha, hc]
      · simp [seasonAnchorStep, seasonLabels, List.filterMap_cons, ha, hc]

/-- **C5.**  Season-page episode extraction returns the extracted
episode labels in reverse document order: the labels of the returned
sequence are the reverse of the labels collected from the page's list
items, so document order `[Ep03, Ep02, Ep01]` comes back as
`[Ep01, Ep02, Ep03]`. -/
theorem c5_season_reversal (fetch : Fetch) (surl base : String) (page : Page)
    (h : fetch surl = some page) :
    (get_episodes_from_season_page fetch surl base).map (fun q => q.quality) =
      (seasonLabels page.listItems).reverse := by
  rw [get_episodes_eq_some fetch surl base page h, List.map_reverse,
    seasonScan_labels]
  simp

theorem c5_season_reversal_witness :
    seasonLabels [⟨some ⟨"/download/e3/", "Ep03"⟩, "Ep03"⟩,
      ⟨some ⟨"/download/e2/", "Ep02"⟩, "Ep02"⟩,
      ⟨some ⟨"/download/e1/", "Ep01"⟩, "Ep01"⟩] = ["Ep03", "Ep02", "Ep01"] ∧
    (get_episodes_from_season_page c5Fetch "http://isaidub.love/season-2/"
      "http://isaidub.love").map (fun q => q.quality) = ["Ep01", "Ep02", "Ep03"] := by
  refine ⟨by decide, ?_⟩
  rw [c5_season_reversal c5Fetch "http://isaidub.love/season-2/"
    "http://isaidub.love"
    { emptyPage with listItems :=
      [⟨some ⟨"/download/e3/", "Ep03"⟩, "Ep03"⟩,
       ⟨some ⟨"/download/e2/", "Ep02"⟩, "Ep02"⟩,
       ⟨some ⟨"/download/e1/", "Ep01"⟩, "Ep01"⟩] } (by decide)]
  decide

/-- **C6 (amended).**  The walker's terminal test is a substring test on
the whole lowercased href — it contains `.mp4` anywhere, or contains one
of the fixed CDN name fragments anywhere — not a suffix test on the
extension nor a hostname test.  When the first `div.dlink` lead anchor
of the level-1 page passes that test, `_get_final_mp4_url` returns its
href unchanged after exactly one fetch. -/
theorem c6_terminal_first_dlink (fetch : Fetch) (l1 : String) (page : Page)
    (a : Anchor) (rest : List Anchor)
    (hfetch : fetch l1 = some page)
    (hhead : page.dlinkDivs.filterMap List.head? = a :: rest)
    (hterm : (isMp4 a.href || isCdn2 a.href) = true) :
    get_final_mp4_url fetch l1 = some a.href ∧
    (get_final_mp4_urlC fetch l1).2 = 1 := by
  have hloop : finalLoop fetch (page.dlinkDivs.filterMap List.head?)
      = some a.href := by
    rw [hhead]
    simp only [finalLoop]
    rw [if_pos hterm]
  have hloopC : finalLoopC fetch (page.dlinkDivs.filterMap List.head?)
      = (some a.href, 0) := by
    rw [hhead]
    simp only [finalLoopC]
    rw [if_pos hterm]
  constructor
  · rw [get_final_mp4_url_eq_some fetch l1 page hfetch, hloop]
  · rw [get_final_mp4_urlC_count fetch l1 page hfetch, hloopC]
    rfl

/-- **C6, counterexample.**  The href `http://host/clip.mp4?sig=1` does
not end in a media-file extension and its hostname matches no CDN
fragment — by the claim's characterisation it is not terminal — yet the
walker returns it: the code tests `.mp4` as a substring of the whole
href, not as a suffix. -/
theorem c6_terminal_spec_cex :
    get_final_mp4_url cex6Fetch "http://l1b/" = some "http://host/clip.mp4?sig=1" ∧
    specTerminal "http://host/clip.mp4?sig=1" = false ∧
    isMp4 "http://host/clip.mp4?sig=1" = true :=
  ⟨by decide, by decide, by decide⟩

theorem c6_terminal_first_dlink_witness :
    get_final_mp4_url c6wFetch "http://l1/"
      = some "https://cdn.example.org/files/movie_1080p.mp4" ∧
    (get_final_mp4_urlC c6wFetch "http://l1/").2 = 1 :=
  c6_terminal_first_dlink c6wFetch "http://l1/"
    { emptyPage with dlinkDivs :=
      [[⟨"https://cdn.example.org/files/movie_1080p.mp4", "Server 1"⟩]] }
    ⟨"https://cdn.example.org/files/movie_1080p.mp4", "Server 1"⟩ []
    (by decide) (by decide) (by decide)

theorem setLastSizeD_length (sz : String) :
    ∀ l : List Download, (setLastSizeD l sz).length = l.length := by
  intro l
  induction l with
  | nil => rfl
  | cons x rest ih =>
    cases rest with
    | nil => rfl
    | cons y ys =>
      simp only [setLastSizeD, List.length_cons]
      rw [show (setLastSizeD (y :: ys) sz).length = (y :: ys).length from ih]
      simp

theorem sizeStep_length (dls : List Download) (o : Option String) :
    (sizeStep dls o).length = dls.length := by
  cases o with
  | none => rfl
  | some sz =>
    simp only [sizeStep]
    by_cases he : dls.isEmpty = true
    · rw [if_pos he]
    · rw [if_neg he]
      exact setLastSizeD_length sz dls

theorem listDownloadScan_length (fetch : Fetch) (base : String) :
    ∀ (lis : List LI) (dls : List Download),
      (listDownloadScan fetch base lis dls).length =
        dls.length + lis.countP liHasDownloadAnchor := by
  intro lis
  induction lis with
  | nil => intro dls; simp [listDownloadScan]
  | cons li rest ih =>
    intro dls
    simp only [listDownloadScan]
    rw [ih, sizeStep_length, List.countP_cons]
    cases ha : li.anchor with
    | none =>
      have hli : liHasDownloadAnchor li = false := by
        unfold liHasDownloadAnchor; rw [ha]
      have hstep : listAnchorStep fetch base dls none = dls := rfl
      rw [hstep, hli]
      simp
    | some a =>
      have hli : liHasDownloadAnchor li = pyIn "/download/" a.href := by
        unfold liHasDownloadAnchor; rw [ha]
      rw [hli]
      by_cases hc : pyIn "/download/" a.href = true
      · have hstep : listAnchorStep fetch base dls (some a) =
            dls ++ [⟨a.text, mkFull base a.href,
              get_server_links fetch (mkFull base a.href), some ""⟩] := by
          simp only [listAnchorStep]
          rw [if_pos hc]
        rw [hstep, hc]
        simp
        omega
      · have hstep : listAnchorStep fetch base dls (some a) = dls := by
          simp only [listAnchorStep]
          rw [if_neg hc]
        have hc2 : pyIn "/download/" a.href = false := by
          cases hx : pyIn "/download/" a.href
          · rfl
          · exact absurd hx hc
        rw [hstep, hc2]
        simp

/-- **C7.**  For a direct-download quality option whose page fetch
succeeds: when the page exposes `div.dlink a` anchors, the aggregator
produces exactly one download entry for that quality; otherwise it
produces exactly one entry per list item whose (first) anchor carries
the `/download/` marker. -/
theorem c7_direct_download_entries (fetch : Fetch) (q : Quality) (page : Page)
    (hdir : q.is_direct_download = true) (hfetch : fetch q.url = some page) :
    (page.dlinkDivs.flatten.isEmpty = false →
      (qualityInfoFor fetch q).downloads.length = 1) ∧
    (page.dlinkDivs.flatten.isEmpty = true →
      (qualityInfoFor fetch q).downloads.length
        = page.listItems.countP liHasDownloadAnchor) := by
  rw [qualityInfoFor_eq_direct_some fetch q page hdir hfetch]
  constructor
  · intro hne
    rw [if_pos (by rw [hne]; rfl)]
    rfl
  · intro he
    rw [if_neg (by rw [he]; simp)]
    show (listDownloadScan fetch (originOf q.url) page.listItems []).length = _
    rw [listDownloadScan_length]
    simp

theorem c7_direct_download_entries_witness :
    (qualityInfoFor c7Fetch c7qd).downloads.length = 1 ∧
    (qualityInfoFor c7Fetch c7ql).downloads.length = 2 := by
  constructor
  · exact (c7_direct_download_entries c7Fetch c7qd c7PageD (by decide)
      (by decide)).1 (by decide)
  · have h := (c7_direct_download_entries c7Fetch c7ql c7PageL (by decide)
      (by decide)).2 (by decide)
    rw [h]
    decide

theorem qoLoop_unclassified (fetch : Fetch) (base : String) :
    ∀ (anchors : List Anchor) (qs : List Quality),
      (∀ a ∈ anchors, classifiesAnchor fetch base a = false) →
      qoLoop fetch base anchors qs = (false, qs) := by
  intro anchors
  induction anchors with
  | nil => intro qs _; rfl
  | cons a rest ih =>
    intro qs hall
    have ha := hall a (by simp)
    unfold classifiesAnchor at ha
    simp only [Bool.or_eq_false_iff, Bool.and_eq_false_iff] at ha
    obtain ⟨⟨⟨⟨h1, h2⟩, h3⟩, h4⟩, h5⟩ := ha
    have hseason : isSeasonHref a = true →
        get_episodes_from_season_page fetch (mkFull base a.href) base = [] := by
      intro hs
      rcases h3 with h3 | h3
      · rw [hs] at h3; exact absurd h3 (by simp)
      · simp only [Bool.not_eq_false'] at h3
        exact List.isEmpty_iff.mp h3
    rw [qoLoop_cons_skip fetch base a rest qs h1 h2 hseason]
    rw [if_neg (by simp [h4]), if_neg (by simp [h5])]
    exact ih qs (fun x hx => hall x (by simp [hx]))

/-- **C8 (amended).**  No fetch failure or classification miss aborts
`scrape_movie`: it always returns a result whose `qualities` are the
per-quality aggregations of the resolved quality options, and a quality
option whose page fails to fetch contributes an empty download list.  A
movie page with zero classifiable anchors yields an empty quality
list — unless the movie URL contains `"season"`, the origin contains
`"moviesda"`, and sequential episode probing finds episodes, in which
case the probed episodes are returned instead (see the
counterexample). -/
theorem c8_error_degradation (fetch : Fetch) (u : String) :
    (∀ q ∈ (get_quality_options fetch u).1, fetch q.url = none →
      (qualityInfoFor fetch q).downloads = []) ∧
    ((scrape_movie fetch u).qualities
      = ((get_quality_options fetch u).1).map (qualityInfoFor fetch)) ∧
    (∀ page, fetch u = some page →
      (∀ a ∈ page.divF, classifiesAnchor fetch (originOf u) a = false) →
      (get_quality_options fetch u).1 =
        (if pyIn "season" (strLower u) && pyIn "moviesda" (originOf u) then
          (if (scan_moviesda_episodes fetch u (originOf u)).isEmpty then []
           else scan_moviesda_episodes fetch u (originOf u))
         else [])) := by
  refine ⟨?_, rfl, ?_⟩
  · intro q hq hnone
    by_cases hdir : q.is_direct_download = true
    · rw [qualityInfoFor_eq_direct_none fetch q hdir hnone]
    · have hdir2 : q.is_direct_download = false := by
        cases hv : q.is_direct_download
        · rfl
        · exact absurd hv hdir
      rw [qualityInfoFor_eq_indirect fetch q hdir2]
      show get_download_links fetch q.url = []
      exact get_download_links_eq_none fetch q.url hnone
  · intro page hfetch hall
    rw [get_quality_options_eq_some fetch u page hfetch,
      qoLoop_unclassified fetch (originOf u) page.divF [] hall]
    show (if pyIn "season" (strLower u) && pyIn "moviesda" (originOf u) then
        ((if (scan_moviesda_episodes fetch u (originOf u)).isEmpty then
            ([] : List Quality)
          else scan_moviesda_episodes fetch u (originOf u)),
         get_movie_images page u)
      else ([], get_movie_images page u)).1 = _
    by_cases hc : (pyIn "season" (strLower u) && pyIn "moviesda" (originOf u)) = true
    · rw [if_pos hc, if_pos hc]
    · rw [if_neg hc, if_neg hc]

/-- **C8, counterexample.**  A movie page with zero anchors (so zero
classifiable anchors) does not always yield an empty quality list: with
`"season"` in the URL on a moviesda origin, the sequential probing
fallback finds episode 1 and the result carries one quality. -/
theorem c8_probe_fallback_cex :
    cex8Fetch c8u = some emptyPage ∧
    emptyPage.divF = [] ∧
    (scrape_movie cex8Fetch c8u).qualities.length = 1 ∧
    (get_quality_options cex8Fetch c8u).1 ≠ [] :=
  ⟨by decide, by decide, by decide, by decide⟩

theorem c8_error_degradation_witness :
    (qualityInfoFor wit8Fetch
      ⟨"1080p", "http://m.com/a-1080p-x/", false, none⟩).downloads = [] ∧
    (get_quality_options wit8Fetch "http://m.com/b-movie/").1 = [] := by
  constructor
  · exact (c8_error_degradation wit8Fetch "http://m.com/a-movie/").1
      ⟨"1080p", "http://m.com/a-1080p-x/", false, none⟩ (by decide) (by decide)
  · have h := (c8_error_degradation wit8Fetch "http://m.com/b-movie/").2.2
      { emptyPage with divF := [⟨"/plain.html", "About"⟩] } (by decide) (by decide)
    rw [h]
    decide

theorem picScan_stable (base : String) :
    ∀ (pics : List Pic) (acc : Images) (p : String),
      (∀ pc ∈ pics, picHasPosterSource pc = false) →
      acc.poster_url = some p →
      (picScan base pics acc).poster_url = some p := by
  intro pics
  induction pics with
  | nil => intro acc p _ hacc; simpa [picScan] using hacc
  | cons pc rest ih =>
    intro acc p hall hacc
    have hpc := hall pc (by simp)
    simp only [picScan]
    refine ih _ p (fun x hx => hall x (by simp [hx])) ?_
    have h1 : (picSourceStep base acc pc.sourceSrcset).poster_url = some p := by
      cases hss : pc.sourceSrcset with
      | none => simpa [picSourceStep] using hacc
      | some s =>
        unfold picHasPosterSource at hpc
        rw [hss] at hpc
        replace hpc : (!(s = "") && pyIn "/uploads/posters/" s) = false := hpc
        simp only [picSourceStep]
        rw [if_neg (by simp [hpc])]
        exact hacc
    cases hsi : pc.imgSrc with
    | none => simpa [picImgStep] using h1
    | some s =>
      simp only [picImgStep]
      rw [if_neg (by simp [h1])]
      exact h1

theorem picScan_source_sets (base : String) :
    ∀ (ps2 : List Pic) (pc : Pic) (acc : Images) (ss : String),
      pc.sourceSrcset = some ss →
      (!(ss = "") && pyIn "/uploads/posters/" ss) = true →
      (∀ x ∈ ps2, picHasPosterSource x = false) →
      (picScan base (pc :: ps2) acc).poster_url
        = some (mkFull base (firstToken ss)) := by
  intro ps2 pc acc ss hss hcond hall
  simp only [picScan]
  apply picScan_stable base ps2 _ _ hall
  have h1 : (picSourceStep base acc pc.sourceSrcset).poster_url
      = some (mkFull base (firstToken ss)) := by
    rw [hss]
    simp only [picSourceStep]
    rw [if_pos hcond]
  cases hsi : pc.imgSrc with
  | none => simpa [picImgStep] using h1
  | some s =>
    simp only [picImgStep]
    rw [if_neg (by simp [h1])]
    exact h1

theorem picScan_append (base : String) :
    ∀ (l1 l2 : List Pic) (acc : Images),
      picScan base (l1 ++ l2) acc = picScan base l2 (picScan base l1 acc) := by
  intro l1
  induction l1 with
  | nil => intro l2 acc; rfl
  | cons pc rest ih =>
    intro l2 acc
    simp only [List.cons_append, picScan]
    exact ih l2 _

/-- **C9 (amended).**  In image extraction, the `<picture>` `<img>`
branch is consulted only when no poster has been found, and a candidate
is accepted only when its path contains `/uploads/posters/`; but the
`<picture>` `<source>` branch is consulted unconditionally and, whenever
its `srcset` is nonempty and contains the poster path segment, it
overwrites any previously found poster — the last such `<source>` wins
(see the counterexample for the overwrite). -/
theorem c9_picture_poster (page : Page) (u : String) :
    (∀ ps pc ps2 ss, page.pictures = ps ++ pc :: ps2 →
      pc.sourceSrcset = some ss →
      (!(ss = "") && pyIn "/uploads/posters/" ss) = true →
      (∀ x ∈ ps2, picHasPosterSource x = false) →
      (get_movie_images page u).poster_url
        = some (mkFull (originOf u) (firstToken ss))) ∧
    (∀ p, (imgScan (originOf u) page.imgs ⟨none, []⟩).poster_url = some p →
      (∀ x ∈ page.pictures, picHasPosterSource x = false) →
      (get_movie_images page u).poster_url = some p) := by
  constructor
  · intro ps pc ps2 ss hsplit hss hcond hall
    unfold get_movie_images
    rw [hsplit, picScan_append]
    exact picScan_source_sets (originOf u) ps2 pc _ ss hss hcond hall
  · intro p hp hall
    unfold get_movie_images
    exact picScan_stable (originOf u) page.pictures _ p hall hp

/-- **C9, counterexample.**  The plain-`<img>` pass finds the poster
`A.jpg`, yet the `<picture>`'s `<source>` (whose srcset contains the
poster segment) overwrites it with `B.jpg`: a poster found earlier *is*
overwritten by a `<picture>` candidate. -/
theorem c9_poster_overwrite_cex :
    (imgScan (originOf "http://moviesda15.com/movie-x/") cex9Page.imgs
      ⟨none, []⟩).poster_url
      = some "http://moviesda15.com/uploads/posters/A.jpg" ∧
    (get_movie_images cex9Page "http://moviesda15.com/movie-x/").poster_url
      = some "http://moviesda15.com/uploads/posters/B.jpg" ∧
    ("http://moviesda15.com/uploads/posters/B.jpg" : String)
      ≠ "http://moviesda15.com/uploads/posters/A.jpg" :=
  ⟨by decide, by decide, by decide⟩

theorem c9_picture_poster_witness :
    (imgScan (originOf "http://moviesda15.com/movie-x/") wit9Page.imgs
      ⟨none, []⟩).poster_url
      = some "http://moviesda15.com/uploads/posters/A.jpg" ∧
    (get_movie_images wit9Page "http://moviesda15.com/movie-x/").poster_url
      = some "http://moviesda15.com/uploads/posters/A.jpg" ∧
    (get_movie_images cex9Page "http://moviesda15.com/movie-x/").poster_url
      = some (mkFull (originOf "http://moviesda15.com/movie-x/")
          (firstToken "/uploads/posters/B.jpg")) :=
  ⟨by decide,
   (c9_picture_poster wit9Page "http://moviesda15.com/movie-x/").2
     "http://moviesda15.com/uploads/posters/A.jpg" (by decide) (by decide),
   (c9_picture_poster cex9Page "http://moviesda15.com/movie-x/").1
     [] ⟨some "/uploads/posters/B.jpg", none⟩ [] "/uploads/posters/B.jpg"
     (by decide) (by decide) (by decide) (by decide)⟩
